import Mathlib

/-!
# Host program of the multiexp_g1 kernel (`kernel/multiexp_g1/src/host.cpp`)

A shallow embedding of `timer_end` and `main`.  Machine integers are
`Nat`/`Int` with explicit wrap-around: `size_t`/`uint64_t` are taken modulo
`2^64`, `long` is two's complement on 64 bits.
-/

namespace Host

/-! ## Machine arithmetic -/

/-- Reduction of a natural number to `size_t` / `uint64_t`. -/
def wrap64 (n : Nat) : Nat := n % 2 ^ 64

/-- Reduction of an integer to a 64-bit two's complement `long`. -/
def wrapLong (z : Int) : Int := (z + 2 ^ 63) % 2 ^ 64 - 2 ^ 63

/-- Conversion of a `long` to `uint64_t`. -/
def longToU64 (z : Int) : Nat := (z % 2 ^ 64).toNat

/-- The values a `long` can hold. -/
def InLong (z : Int) : Prop := -(2 ^ 63) ≤ z ∧ z < 2 ^ 63

/-! ## Timer (host.cpp lines 40-54) -/

/-- The `struct timespec` of `<time.h>`. -/
structure timespec where
  tv_sec : Int
  tv_nsec : Int
deriving DecidableEq, Repr

/-- A timestamp as `clock_gettime` delivers it. -/
def timespec.Normalised (t : timespec) : Prop := 0 ≤ t.tv_nsec ∧ t.tv_nsec < 10 ^ 9

/-- Lexicographic order on `(tv_sec, tv_nsec)`. -/
def timespec.NotAfter (a b : timespec) : Prop :=
  a.tv_sec < b.tv_sec ∨ (a.tv_sec = b.tv_sec ∧ a.tv_nsec ≤ b.tv_nsec)

/-- The exact number of nanoseconds from the reading `start_time` to the reading
`end_time`, as an integer. -/
def nanos_between (start_time end_time : timespec) : Int :=
  (end_time.tv_sec - start_time.tv_sec) * 10 ^ 9 + (end_time.tv_nsec - start_time.tv_nsec)

/-- The function `timer_end`; `end_time` is what `clock_gettime` stores.
Every `long` operation wraps. -/
def timer_end (end_time : timespec) (start_time : timespec) : Int :=
  let diffInNanos :=
    wrapLong (wrapLong (wrapLong (end_time.tv_sec - start_time.tv_sec) * 1000000000)
      + wrapLong (end_time.tv_nsec - start_time.tv_nsec))
  diffInNanos

/-! ## The library interface `bn128.hpp` -/

/-- The Jacobian point type `Bn128::jb_fp_t`: the field elements X, Y, Z. -/
structure jb_fp_t where
  x : Nat
  y : Nat
  z : Nat
deriving DecidableEq, Repr

/-- Modelled from the spec: the constants and primitives of `bn128.hpp` (absent
from the sources) that `host.cpp` relies on.  `Af` is the type of curve points in
affine form, the curve group itself is the additive group structure carried by
`Af` (spec 4.5: `add`, with the point at infinity as identity).  `BN128_BITS` is
the macro of that name, `modulus` the base-field prime, `to_mont`/`from_mont` the
Montgomery conversions of spec 4.3, `fe_export` the field-element serialiser of
spec 4.8, `jb_import` the Jacobian reader of spec 4.8, `af_coords` the (x, y)
coordinates of an affine point and `jb_to_af` the Jacobian to affine conversion
of spec 4.4. -/
structure Bn128 (Af : Type) where
  BN128_BITS : Nat
  modulus : Nat
  G1_af : Af
  af_coords : Af → Nat × Nat
  to_mont : Nat → Nat
  from_mont : Nat → Nat
  fe_export : Nat → List Nat
  jb_import : List Nat → jb_fp_t
  jb_to_af : jb_fp_t → Af

section Library

variable {Af : Type}

/-- Modelled from the spec: `to_mont_af`, the coordinates of an affine point
taken to Montgomery form one by one (spec 4.3). -/
def Bn128.to_mont_af (lib : Bn128 Af) (p : Af) : Nat × Nat :=
  (lib.to_mont (lib.af_coords p).1, lib.to_mont (lib.af_coords p).2)

/-- Modelled from the spec: `af_export` emits x then y, each serialised on its
own (spec 4.8). -/
def Bn128.af_export (lib : Bn128 Af) (m : Nat × Nat) : List Nat :=
  lib.fe_export m.1 ++ lib.fe_export m.2

/-- Modelled from the spec: the Jacobian export, X then Y then Z (spec 4.8 and
the result-buffer layout of spec 6). -/
def Bn128.jb_export (lib : Bn128 Af) (j : jb_fp_t) : List Nat :=
  lib.fe_export j.x ++ lib.fe_export j.y ++ lib.fe_export j.z

/-- Coordinate-wise Montgomery form of a Jacobian triple (spec 4.3). -/
def Bn128.to_mont_jb (lib : Bn128 Af) (j : jb_fp_t) : jb_fp_t :=
  ⟨lib.to_mont j.x, lib.to_mont j.y, lib.to_mont j.z⟩

/-- Modelled from the spec: `mont_jb_to_af` undoes the Montgomery form of each
coordinate and then converts Jacobian to affine (data flow of spec 2). -/
def Bn128.mont_jb_to_af (lib : Bn128 Af) (j : jb_fp_t) : Af :=
  lib.jb_to_af ⟨lib.from_mont j.x, lib.from_mont j.y, lib.from_mont j.z⟩

variable [AddCommGroup Af]

/-- Double-and-add over the bits of `s`, most significant bit first: the
recursive call handles the higher bits, then the accumulator is doubled and the
lowest bit is added. -/
def dbl_add (P : Af) : Nat → Nat → Af
  | 0, _ => 0
  | fuel + 1, s =>
    if s = 0 then 0
    else
      let acc := dbl_add P fuel (s / 2)
      let acc2 := acc + acc
      if s % 2 = 1 then acc2 + P else acc2

/-- Modelled from the spec: `pt_mul`, scalar multiplication by double-and-add
(spec 4.6); the fuel `s` exceeds the bit length of `s`. -/
def pt_mul (P : Af) (s : Nat) : Af := dbl_add P s s

/-- Modelled from the spec: `multi_exp`, the fold of the group `add` over
`scalar_mul(point_i, scalar_i)`, starting from the point at infinity
(spec 4.7). -/
def multi_exp (pairs : List (Af × Nat)) : Af :=
  pairs.foldl (fun acc ps => acc + pt_mul ps.1 ps.2) 0

end Library

/-! ## Buffers of `main` (host.cpp lines 71-92) -/

/-- Line 72: `size_t scalar_vector_size_bytes = BN128_BITS/8 * num_in`. -/
def scalar_vector_size_bytes (bits num_in : Nat) : Nat := wrap64 (bits / 8 * num_in)

/-- Line 73: `size_t point_vector_size_bytes = 2 * BN128_BITS/8 * num_in`. -/
def point_vector_size_bytes (bits num_in : Nat) : Nat := wrap64 (2 * bits / 8 * num_in)

/-- Line 74: `size_t result_vector_size_bytes = 3 * BN128_BITS/8`. -/
def result_vector_size_bytes (bits : Nat) : Nat := wrap64 (3 * bits / 8)

/-- Line 76: number of words of `scalar_input`. -/
def scalar_input_len (bits num_in : Nat) : Nat := scalar_vector_size_bytes bits num_in / 8

/-- Line 77: number of words of `point_input`. -/
def point_input_len (bits num_in : Nat) : Nat := point_vector_size_bytes bits num_in / 8

/-- Line 78: number of words of `hw_result`. -/
def hw_result_len (bits : Nat) : Nat := result_vector_size_bytes bits / 8

/-- Line 89: the index `i*2*BN128_BITS/64` into `point_input`, in `size_t`. -/
def point_index (bits i : Nat) : Nat := wrap64 (wrap64 (i * 2) * bits) / 64

/-- Line 90: the index `i*BN128_BITS/64` into `scalar_input`, in `size_t`. -/
def scalar_index (bits i : Nat) : Nat := wrap64 (i * bits) / 64

/-- Words per field element as the spec words it: the bit width divided by 64,
rounded up. -/
def words_per_fe (bits : Nat) : Nat := (bits + 63) / 64

/-- A store of `ws` through a pointer to `buf[off]`; `none` when the store runs
past the end of the vector (undefined behaviour). -/
def writeAt (buf : List Nat) (off : Nat) (ws : List Nat) : Option (List Nat) :=
  if off + ws.length ≤ buf.length then
    some (buf.take off ++ ws ++ buf.drop (off + ws.length))
  else none

/-- The `len` words of `buf` from `off` on. -/
def slot (buf : List Nat) (off len : Nat) : List Nat := (buf.drop off).take len

/-- The three containers the test-data loop fills. -/
structure TestData (Af : Type) where
  point_input : List Nat
  scalar_input : List Nat
  sw_input_points : List (Af × Nat)

section Loop

variable {Af : Type} [AddCommGroup Af]

/-- Lines 85-91, the body of the test-data loop for index `i`. -/
def loop_body (lib : Bn128 Af) (i : Nat) (st : TestData Af) : Option (TestData Af) :=
  let s := i + 1
  let p := pt_mul lib.G1_af s
  match writeAt st.point_input (point_index lib.BN128_BITS i)
      (lib.af_export (lib.to_mont_af p)) with
  | none => none
  | some pts =>
    match writeAt st.scalar_input (scalar_index lib.BN128_BITS i) (lib.fe_export s) with
    | none => none
    | some scs => some ⟨pts, scs, st.sw_input_points ++ [(p, s)]⟩

/-- Line 84, `for (size_t i = 0; i < num_in; i++)`: `k` iterations are left,
the next index is `i`. -/
def test_data_loop (lib : Bn128 Af) : Nat → Nat → TestData Af → Option (TestData Af)
  | 0, _, st => some st
  | k + 1, i, st =>
    match loop_body lib i st with
    | none => none
    | some st1 => test_data_loop lib k (i + 1) st1

/-- Lines 76-92: the zero-initialised vectors, then the loop. -/
def create_test_data (lib : Bn128 Af) (num_in : Nat) : Option (TestData Af) :=
  test_data_loop lib num_in 0
    ⟨List.replicate (point_input_len lib.BN128_BITS num_in) 0,
     List.replicate (scalar_input_len lib.BN128_BITS num_in) 0, []⟩

end Loop

/-! ## Command line (host.cpp lines 57-63) -/

/-- The `isspace` test of the C locale on a character code. -/
def is_space (c : Nat) : Bool := c = 32 || (9 ≤ c && c ≤ 13)

/-- Value of a character code as a digit, letters standing for 10 to 35. -/
def digit_val (c : Nat) : Option Nat :=
  if 48 ≤ c ∧ c ≤ 57 then some (c - 48)
  else if 97 ≤ c ∧ c ≤ 122 then some (c - 87)
  else if 65 ≤ c ∧ c ≤ 90 then some (c - 55)
  else none

/-- The longest run of digits of `base` at the head of the text, as a number
(zero for an empty run). -/
def parse_digits (base : Nat) : List Nat → Nat → Nat
  | [], acc => acc
  | c :: cs, acc =>
    match digit_val c with
    | some d => if d < base then parse_digits base cs (acc * base + d) else acc
    | none => acc

/-- Drops leading white space. -/
def skip_space : List Nat → List Nat
  | [] => []
  | c :: cs => if is_space c then skip_space cs else c :: cs

/-- Base 0 of `strtol`: a `0x`/`0X` prefix before a hexadecimal digit selects
base 16, another leading `0` base 8, anything else base 10. -/
def parse_magnitude : List Nat → Nat
  | 48 :: x :: d :: cs =>
    match digit_val d with
    | some v =>
      if (x = 120 ∨ x = 88) ∧ v < 16 then parse_digits 16 (d :: cs) 0
      else parse_digits 8 (x :: d :: cs) 0
    | none => parse_digits 8 (x :: d :: cs) 0
  | 48 :: cs => parse_digits 8 cs 0
  | cs => parse_digits 10 cs 0

/-- The C library call `strtol(text, NULL, 0)` on the character codes of the
text: white space, an optional sign, the digits, the value clamped to the range
of `long`; a text without digits yields 0. -/
def strtol (text : List Nat) : Int :=
  match skip_space text with
  | 45 :: cs => max (-(2 ^ 63)) (-(parse_magnitude cs : Int))
  | 43 :: cs => min (2 ^ 63 - 1) (parse_magnitude cs : Int)
  | cs => min (2 ^ 63 - 1) (parse_magnitude cs : Int)

/-- Line 63: `uint64_t num_in = strtol(argv[2], NULL, 0)`. -/
def parse_num_in (arg : String) : Nat := longToU64 (strtol (arg.toList.map Char.toNat))

/-! ## Accelerator actions (host.cpp lines 103-184) -/

/-- The three accelerator buffers of `main`. -/
inductive Buffer where
  | scalar
  | point
  | result
deriving DecidableEq, Repr

/-- What a kernel argument is bound to. -/
inductive KernelArg where
  | count (n : Nat)
  | buffer (b : Buffer)
deriving DecidableEq, Repr

/-- The calls `main` makes, in the order it makes them; `jb_import` is the read
of the result buffer. -/
inductive Action where
  | usage
  | create_context (i : Nat)
  | create_queue (i : Nat)
  | create_program (i : Nat)
  | create_kernel (i : Nat)
  | create_buffer (b : Buffer) (bytes : Nat)
  | set_arg (idx : Nat) (v : KernelArg)
  | migrate_to_device (bs : List Buffer)
  | enqueue_task
  | migrate_to_host (bs : List Buffer)
  | finish
  | jb_import
deriving DecidableEq, Repr

/-- The device an action touches. -/
def Action.device : Action → Option Nat
  | .create_context i => some i
  | .create_queue i => some i
  | .create_program i => some i
  | .create_kernel i => some i
  | _ => none

/-- Buffer creations. -/
def Action.is_create_buffer : Action → Bool
  | .create_buffer _ _ => true
  | _ => false

/-- Kernel argument bindings. -/
def Action.is_set_arg : Action → Bool
  | .set_arg _ _ => true
  | _ => false

/-- Everything `main` receives from outside: the command line, the devices
`xcl::get_xil_devices` found (numbered from 0), whether each OpenCL call
succeeds, the words the accelerator leaves in the result buffer for a count, a
point buffer and a scalar buffer, and the two clock readings.  The host vectors
are taken to be allocated whatever their length, and `xcl::get_xil_devices` and
`xcl::read_binary_file` to return. -/
structure Env where
  argv : List String
  devices : Nat
  ok : Action → Bool
  device_result : Nat → List Nat → List Nat → List Nat
  start_clock : timespec
  end_clock : timespec

/-- How the device loop of lines 110-131 ends: by the `exit` of a failed
`OCL_CHECK`, with no device programmed, or with the kernel of device `i`. -/
inductive DeviceOutcome where
  | aborted
  | none_valid
  | valid (i : Nat)
deriving DecidableEq, Repr

/-- Modelled from the spec: `OCL_CHECK`, a macro of `xcl2.hpp` (absent from the
sources) wrapped around an OpenCL call; a call that did not return `CL_SUCCESS`
is fatal to the run (spec 7), the program ends with `exit(EXIT_FAILURE)`.  The
proposition says that the program exits, `success` being the outcome of the
call. -/
@[reducible] def OCL_CHECK (success : Bool) : Prop := success = false

/-- Lines 110-131; `k` devices are left, the next index is `i`.  The creation of
the program is the one call that is not under `OCL_CHECK`: its failure moves the
loop to the next device. -/
def device_loop (ok : Action → Bool) : Nat → Nat → List Action × DeviceOutcome
  | 0, _ => ([], .none_valid)
  | k + 1, i =>
    if OCL_CHECK (ok (.create_context i)) then ([.create_context i], .aborted)
    else if OCL_CHECK (ok (.create_queue i)) then
      ([.create_context i, .create_queue i], .aborted)
    else if ok (.create_program i) = false then
      let rest := device_loop ok k (i + 1)
      (.create_context i :: .create_queue i :: .create_program i :: rest.1, rest.2)
    else if OCL_CHECK (ok (.create_kernel i)) then
      ([.create_context i, .create_queue i, .create_program i, .create_kernel i], .aborted)
    else
      ([.create_context i, .create_queue i, .create_program i, .create_kernel i], .valid i)

/-- Lines 138-178: the calls under `OCL_CHECK` after the device loop, in
source order. -/
def checked_calls (bits num_in : Nat) : List Action :=
  [ .create_buffer .scalar (scalar_vector_size_bytes bits num_in),
    .create_buffer .point (point_vector_size_bytes bits num_in),
    .create_buffer .result (result_vector_size_bytes bits),
    .set_arg 0 (.count num_in),
    .set_arg 1 (.buffer .point),
    .set_arg 2 (.buffer .scalar),
    .set_arg 3 (.buffer .result),
    .migrate_to_device [.point, .scalar],
    .enqueue_task,
    .migrate_to_host [.result],
    .finish ]

/-- A sequence of calls each under `OCL_CHECK`: the calls made, the failing one
included, and whether all of them succeeded. -/
def run_checked (ok : Action → Bool) : List Action → List Action × Bool
  | [] => ([], true)
  | a :: rest =>
    if OCL_CHECK (ok a) then ([a], false)
    else
      let r := run_checked ok rest
      (a :: r.1, r.2)

/-- The result vector after the accelerator has written `out` into it. -/
def blit (old out : List Nat) : List Nat := (out ++ old.drop out.length).take old.length

/-- `EXIT_SUCCESS` of `<stdlib.h>`. -/
def EXIT_SUCCESS : Nat := 0

/-- `EXIT_FAILURE` of `<stdlib.h>`. -/
def EXIT_FAILURE : Nat := 1

/-- What a run of `main` leaves behind: the exit code, the calls made, the final
`valid_device`, whether the match message was printed, and the values of
`sw_result`, `res_af` and `compute_time` once they are assigned. -/
structure Run (Af : Type) where
  exit_code : Nat
  trace : List Action
  valid_device : Nat
  reported_match : Bool
  sw_result : Option Af
  res_af : Option Af
  compute_time : Option Nat

/-- Line 78 and lines 171-178: the vector `hw_result`, allocated with
`result_vector_size_bytes/8` zero words, after the accelerator has written its
result into it. -/
def hw_result_vector {Af : Type} (bits : Nat) (env : Env) (num_in : Nat) (d : TestData Af) :
    List Nat :=
  blit (List.replicate (hw_result_len bits) 0)
    (env.device_result num_in d.point_input d.scalar_input)

section Main

variable {Af : Type} [AddCommGroup Af] [DecidableEq Af]

/-- Lines 183-188: the result vector as the accelerator left it, read by
`jb_import` and converted by `mont_jb_to_af`. -/
def decode_result (lib : Bn128 Af) (env : Env) (num_in : Nat) (d : TestData Af) : Af :=
  let hw_result := hw_result_vector lib.BN128_BITS env num_in d
  let res_jb := lib.jb_import hw_result
  lib.mont_jb_to_af res_jb

/-- The function `main`.  The result is `none` when the test-data loop stores
outside a vector (undefined behaviour). -/
def main (lib : Bn128 Af) (env : Env) : Option (Run Af) :=
  if env.argv.length ≠ 3 then
    some ⟨EXIT_FAILURE, [.usage], 0, false, none, none, none⟩
  else
    let num_in := parse_num_in (env.argv.getD 2 "")
    match create_test_data lib num_in with
    | none => none
    | some d =>
      let sw_result := multi_exp d.sw_input_points
      let dev := device_loop env.ok env.devices 0
      match dev.2 with
      | .aborted => some ⟨EXIT_FAILURE, dev.1, 0, false, some sw_result, none, none⟩
      | .none_valid => some ⟨EXIT_FAILURE, dev.1, 0, false, some sw_result, none, none⟩
      | .valid _ =>
        let calls := run_checked env.ok (checked_calls lib.BN128_BITS num_in)
        if calls.2 = false then
          some ⟨EXIT_FAILURE, dev.1 ++ calls.1, 1, false, some sw_result, none, none⟩
        else
          let compute_time := longToU64 (timer_end env.end_clock env.start_clock)
          let res_af := decode_result lib env num_in d
          if res_af = sw_result then
            some ⟨EXIT_SUCCESS, dev.1 ++ calls.1 ++ [.jb_import], 1, true,
              some sw_result, some res_af, some compute_time⟩
          else
            some ⟨EXIT_FAILURE, dev.1 ++ calls.1 ++ [.jb_import], 1, false,
              some sw_result, some res_af, some compute_time⟩

end Main

/-- Device `k` is the one `main` programs: the devices before it got a context
and a queue and refused the image, device `k` got a context and a queue, took
the image and yielded the kernel. -/
def Programmed (env : Env) (k : Nat) : Prop :=
  k < env.devices
    ∧ (∀ j, j < k → env.ok (.create_context j) = true ∧ env.ok (.create_queue j) = true
        ∧ env.ok (.create_program j) = false)
    ∧ env.ok (.create_context k) = true ∧ env.ok (.create_queue k) = true
    ∧ env.ok (.create_program k) = true ∧ env.ok (.create_kernel k) = true

/-- The calls made on `m` devices from index `i` on that all refuse the image. -/
def failed_tries : Nat → Nat → List Action
  | _, 0 => []
  | i, m + 1 =>
    .create_context i :: .create_queue i :: .create_program i :: failed_tries (i + 1) m

/-! ## Conditions on the absent constants and primitives -/

/-- A host vector that `main` has allocated lies in the address space of the
process.  No machine the program runs on addresses 2^61 bytes (the virtual
addresses of x86-64 have 48 or 57 bits), so the constructor of a larger vector
at lines 76-78 throws and `main` ends there, before the test-data loop. -/
def Allocated (bytes : Nat) : Prop := bytes < 2 ^ 61

/-- The macro `BN128_BITS` is an `int` constant and a positive multiple of the
64-bit word size. -/
def WordAligned (bits : Nat) : Prop := 0 < bits ∧ 64 ∣ bits ∧ bits < 2 ^ 31

/-- The serialiser writes every value below `2^BN128_BITS` on exactly
`BN128_BITS/64` words, and Montgomery forms are such values. -/
structure Bn128.Serialises {Af : Type} (lib : Bn128 Af) : Prop where
  aligned : WordAligned lib.BN128_BITS
  fe_export_length : ∀ a, a < 2 ^ lib.BN128_BITS →
    (lib.fe_export a).length = lib.BN128_BITS / 64
  to_mont_lt : ∀ a, lib.to_mont a < 2 ^ lib.BN128_BITS

/-- The concatenation of the blocks `f 0`, ..., `f (n-1)`. -/
def blocks (f : Nat → List Nat) : Nat → List Nat
  | 0 => []
  | n + 1 => blocks f n ++ f n

/-- A small instance of the interface: a point is written as the integer
multiple of the generator it is, the base field has 101 elements, field elements
are exported on four little-endian 64-bit words with `R = 2^256`. -/
def small_lib : Bn128 Int where
  BN128_BITS := 256
  modulus := 101
  G1_af := 1
  af_coords := fun k => ((k % 101).toNat, ((k * k + 3) % 101).toNat)
  to_mont := fun a => a * 37 % 101
  from_mont := fun a => a * 71 % 101
  fe_export := fun a =>
    [a % 2 ^ 64, a / 2 ^ 64 % 2 ^ 64, a / 2 ^ 128 % 2 ^ 64, a / 2 ^ 192 % 2 ^ 64]
  jb_import := fun ws =>
    ⟨ws.getD 0 0 + ws.getD 1 0 * 2 ^ 64 + ws.getD 2 0 * 2 ^ 128 + ws.getD 3 0 * 2 ^ 192,
     ws.getD 4 0 + ws.getD 5 0 * 2 ^ 64 + ws.getD 6 0 * 2 ^ 128 + ws.getD 7 0 * 2 ^ 192,
     ws.getD 8 0 + ws.getD 9 0 * 2 ^ 64 + ws.getD 10 0 * 2 ^ 128 + ws.getD 11 0 * 2 ^ 192⟩
  jb_to_af := fun j => if j.z = 0 then 0 else (j.x : Int)

/-- The library laws of spec 8 that the verification path rests on: `jb_import`
inverts the Jacobian export, leaving Montgomery form undoes entering it on every
field element, and the Jacobian to affine conversion returns the affine point a
triple represents (`Represents` being that relation). -/
structure Bn128.Lawful {Af : Type} (lib : Bn128 Af) (Represents : jb_fp_t → Af → Prop) :
    Prop where
  jb_import_export : ∀ j : jb_fp_t, j.x < 2 ^ lib.BN128_BITS → j.y < 2 ^ lib.BN128_BITS →
    j.z < 2 ^ lib.BN128_BITS → lib.jb_import (lib.jb_export j) = j
  from_mont_to_mont : ∀ a, a < lib.modulus → lib.from_mont (lib.to_mont a) = a
  jb_to_af_represents : ∀ j P, Represents j P → lib.jb_to_af j = P

/-- Representation of points in the small instance: a triple with non-zero Z
stands for the multiple of the generator written in X, a triple with zero Z for
the point at infinity. -/
def small_represents (j : jb_fp_t) (P : Int) : Prop :=
  (j.z ≠ 0 ∧ (j.x : Int) = P) ∨ (j.z = 0 ∧ P = 0)

/-- A run on the small instance: two devices are found, the first refuses the
image, every other call succeeds, and the accelerator returns the Montgomery
Jacobian encoding of the multiple `x` of the generator. -/
def small_env (count : String) (x : Nat) : Env where
  argv := ["host", "multiexp_g1.xclbin", count]
  devices := 2
  ok := fun a => decide (a ≠ .create_program 0)
  device_result := fun _ _ _ => small_lib.jb_export (small_lib.to_mont_jb ⟨x, 0, 1⟩)
  start_clock := ⟨5, 900000000⟩
  end_clock := ⟨7, 100000000⟩

/-- Scan of a call sequence: true when no `a` occurs before the first `b`. -/
def guarded (b a : Action) : List Action → Bool
  | [] => true
  | x :: xs => if x = b then true else if x = a then false else guarded b a xs

/-! ## Theorems -/

theorem wrapLong_of_inLong (z : Int) (h : InLong z) : wrapLong z = z := by
  unfold InLong at h
  unfold wrapLong
  omega

theorem wrapLong_timer (a b : Int) :
    wrapLong (wrapLong (wrapLong a * 1000000000) + wrapLong b)
      = wrapLong (a * 1000000000 + b) := by
  unfold wrapLong
  omega

/-- C10: for normalised readings, timer_end returns exactly the nanoseconds
between the start reading and the end reading, (s1 - s0)·10^9 + (n1 - n0),
whenever that number fits in a long; that number is non-negative when the end
reading is not earlier than the start reading, also when n1 is below n0, and it
is zero exactly when the two readings coincide, and so is then the value
returned. -/
theorem timer_end_elapsed (start_time end_time : timespec)
    (hs : start_time.Normalised) (he : end_time.Normalised) :
    (InLong (nanos_between start_time end_time) →
        timer_end end_time start_time = nanos_between start_time end_time)
      ∧ (start_time.NotAfter end_time → 0 ≤ nanos_between start_time end_time)
      ∧ (nanos_between start_time end_time = 0 ↔ end_time = start_time)
      ∧ (InLong (nanos_between start_time end_time) → start_time.NotAfter end_time →
          0 ≤ timer_end end_time start_time)
      ∧ (InLong (nanos_between start_time end_time) →
          (timer_end end_time start_time = 0 ↔ end_time = start_time)) := by
  obtain ⟨s0, n0⟩ := start_time
  obtain ⟨s1, n1⟩ := end_time
  simp only [timespec.Normalised, timespec.NotAfter, timespec.mk.injEq, nanos_between] at *
  have hval : InLong ((s1 - s0) * 10 ^ 9 + (n1 - n0)) →
      timer_end ⟨s1, n1⟩ ⟨s0, n0⟩ = (s1 - s0) * 10 ^ 9 + (n1 - n0) := by
    intro hfit
    simp only [timer_end]
    rw [wrapLong_timer]
    exact wrapLong_of_inLong _ (by simpa using hfit)
  have hnonneg : (s0 < s1 ∨ s0 = s1 ∧ n0 ≤ n1) → 0 ≤ (s1 - s0) * 10 ^ 9 + (n1 - n0) := by
    intro h; omega
  have hzero : (s1 - s0) * 10 ^ 9 + (n1 - n0) = 0 ↔ s1 = s0 ∧ n1 = n0 := by
    constructor
    · intro h; omega
    · rintro ⟨h1, h2⟩; subst h1; subst h2; simp
  refine ⟨hval, hnonneg, hzero, ?_, ?_⟩
  · intro hfit h
    rw [hval hfit]
    exact hnonneg h
  · intro hfit
    rw [hval hfit]
    exact hzero

/-- Witness of C10: a start at (5 s, 900000000 ns) and an end at
(7 s, 100000000 ns), 1200000000 ns apart. -/
theorem timer_end_elapsed_witness :
    timer_end ⟨7, 100000000⟩ ⟨5, 900000000⟩ = 1200000000 := by
  have h := (timer_end_elapsed ⟨5, 900000000⟩ ⟨7, 100000000⟩
    (by simp [timespec.Normalised]) (by simp [timespec.Normalised])).1
    (by simp [InLong, nanos_between])
  simpa [nanos_between] using h

/-! ### Buffer sizes -/

theorem wrap64_of_lt {n : Nat} (h : n < 2 ^ 64) : wrap64 n = n :=
  Nat.mod_eq_of_lt h

theorem words_per_fe_aligned {bits : Nat} (hb : WordAligned bits) :
    words_per_fe bits = bits / 64 := by
  obtain ⟨_, ⟨w, rfl⟩, _⟩ := hb
  unfold words_per_fe
  omega

theorem scalar_bytes_eq {bits N : Nat} (hb : WordAligned bits)
    (hN : 2 * (bits / 8) * N < 2 ^ 64) :
    scalar_vector_size_bytes bits N = 8 * (N * (bits / 64)) := by
  obtain ⟨_, ⟨w, rfl⟩, _⟩ := hb
  have h8 : 64 * w / 8 = 8 * w := by omega
  have h64 : 64 * w / 64 = w := by omega
  rw [h8] at hN
  unfold scalar_vector_size_bytes
  rw [h8, h64]
  have e : 2 * (8 * w) * N = 2 * (8 * (N * w)) := by ring
  have e2 : 8 * w * N = 8 * (N * w) := by ring
  rw [e] at hN
  rw [e2]
  exact wrap64_of_lt (by omega)

theorem point_bytes_eq {bits N : Nat} (hb : WordAligned bits)
    (hN : 2 * (bits / 8) * N < 2 ^ 64) :
    point_vector_size_bytes bits N = 8 * (2 * N * (bits / 64)) := by
  obtain ⟨_, ⟨w, rfl⟩, _⟩ := hb
  have h8 : 64 * w / 8 = 8 * w := by omega
  have h28 : 2 * (64 * w) / 8 = 16 * w := by omega
  have h64 : 64 * w / 64 = w := by omega
  rw [h8] at hN
  unfold point_vector_size_bytes
  rw [h28, h64]
  have e : 2 * (8 * w) * N = 16 * (N * w) := by ring
  have e2 : 16 * w * N = 16 * (N * w) := by ring
  have e3 : 8 * (2 * N * w) = 16 * (N * w) := by ring
  rw [e] at hN
  rw [e2, e3]
  exact wrap64_of_lt hN

theorem result_bytes_eq {bits : Nat} (hb : WordAligned bits) :
    result_vector_size_bytes bits = 8 * (3 * (bits / 64)) := by
  obtain ⟨_, ⟨w, rfl⟩, h31⟩ := hb
  unfold result_vector_size_bytes wrap64
  omega

theorem vector_lengths (bits N : Nat) (hb : WordAligned bits)
    (hN : 2 * (bits / 8) * N < 2 ^ 64) :
    scalar_input_len bits N = N * words_per_fe bits
      ∧ point_input_len bits N = 2 * N * words_per_fe bits
      ∧ hw_result_len bits = 3 * words_per_fe bits
      ∧ scalar_vector_size_bytes bits N = 8 * scalar_input_len bits N
      ∧ point_vector_size_bytes bits N = 8 * point_input_len bits N
      ∧ result_vector_size_bytes bits = 8 * hw_result_len bits := by
  have hs := scalar_bytes_eq hb hN
  have hp := point_bytes_eq hb hN
  have hr := result_bytes_eq hb
  rw [words_per_fe_aligned hb]
  unfold scalar_input_len point_input_len hw_result_len
  rw [hs, hp, hr]
  omega

/-! ### Layout of the input buffers -/

theorem index_eq {bits N i : Nat} (hb : WordAligned bits) (hN : 2 * bits * N < 2 ^ 64)
    (hi : i < N) :
    point_index bits i = i * (2 * (bits / 64)) ∧ scalar_index bits i = i * (bits / 64) := by
  obtain ⟨hpos, ⟨w, rfl⟩, _⟩ := hb
  have h64 : 64 * w / 64 = w := by omega
  have hle : 2 * (64 * w) * (i + 1) ≤ 2 * (64 * w) * N := Nat.mul_le_mul_left _ hi
  have hwi : i ≤ w * i := Nat.le_mul_of_pos_left i (by omega)
  have e1 : 2 * (64 * w) * (i + 1) = 128 * (w * i) + 128 * w := by ring
  have e2 : i * 2 * (64 * w) = 128 * (w * i) := by ring
  have e3 : i * (64 * w) = 64 * (w * i) := by ring
  have e4 : i * (2 * w) = 2 * (w * i) := by ring
  have e5 : i * w = w * i := by ring
  rw [e1] at hle
  unfold point_index scalar_index
  rw [h64, wrap64_of_lt (by omega : i * 2 < 2 ^ 64), e2, e3, e4, e5,
    wrap64_of_lt (by omega : 128 * (w * i) < 2 ^ 64),
    wrap64_of_lt (by omega : 64 * (w * i) < 2 ^ 64)]
  omega

theorem small_count {bits N : Nat} (hN : 2 * bits * N < 2 ^ 64) :
    2 * (bits / 8) * N < 2 ^ 64 := by
  have h : 2 * (bits / 8) * N ≤ 2 * bits * N :=
    Nat.mul_le_mul_right _ (Nat.mul_le_mul_left _ (Nat.div_le_self _ _))
  omega

theorem input_len_eq {bits N : Nat} (hb : WordAligned bits) (hN : 2 * bits * N < 2 ^ 64) :
    point_input_len bits N = N * (2 * (bits / 64))
      ∧ scalar_input_len bits N = N * (bits / 64) := by
  have hs := scalar_bytes_eq hb (small_count hN)
  have hp := point_bytes_eq hb (small_count hN)
  unfold point_input_len scalar_input_len
  rw [hs, hp]
  constructor
  · have e : N * (2 * (bits / 64)) = 2 * N * (bits / 64) := by ring
    rw [e]
    omega
  · omega

theorem scalar_lt {bits N i : Nat} (hb : WordAligned bits) (hN : 2 * bits * N < 2 ^ 64)
    (hi : i < N) : i + 1 < 2 ^ bits := by
  obtain ⟨hpos, ⟨w, rfl⟩, _⟩ := hb
  have h1 : N ≤ 2 * (64 * w) * N := Nat.le_mul_of_pos_left N (by omega)
  have h2 : 2 ^ 64 ≤ 2 ^ (64 * w) := Nat.pow_le_pow_right (by norm_num) (by omega)
  omega

section Layout

variable {Af : Type} [AddCommGroup Af]

theorem export_lengths (lib : Bn128 Af) (hs : lib.Serialises) (N : Nat)
    (hN : 2 * lib.BN128_BITS * N < 2 ^ 64) (i : Nat) (hi : i < N) :
    (lib.fe_export (i + 1)).length = lib.BN128_BITS / 64
      ∧ (lib.af_export (lib.to_mont_af (pt_mul lib.G1_af (i + 1)))).length
          = 2 * (lib.BN128_BITS / 64) := by
  refine ⟨hs.fe_export_length _ (scalar_lt hs.aligned hN hi), ?_⟩
  unfold Bn128.af_export Bn128.to_mont_af
  rw [List.length_append, hs.fe_export_length _ (hs.to_mont_lt _),
    hs.fe_export_length _ (hs.to_mont_lt _)]
  omega

/-- Layout of the input vectors for a point count below the wrap-around of the
index products. -/
theorem layout_of_bound (lib : Bn128 Af) (hs : lib.Serialises) (N : Nat)
    (hN : 2 * lib.BN128_BITS * N < 2 ^ 64) :
    (∀ i, i < N →
        (lib.fe_export (i + 1)).length = lib.BN128_BITS / 64
        ∧ (lib.af_export (lib.to_mont_af (pt_mul lib.G1_af (i + 1)))).length
            = 2 * (lib.BN128_BITS / 64)
        ∧ scalar_index lib.BN128_BITS i = i * (lib.BN128_BITS / 64)
        ∧ point_index lib.BN128_BITS i = 2 * i * (lib.BN128_BITS / 64)
        ∧ scalar_index lib.BN128_BITS i + lib.BN128_BITS / 64
            ≤ scalar_input_len lib.BN128_BITS N
        ∧ point_index lib.BN128_BITS i + 2 * (lib.BN128_BITS / 64)
            ≤ point_input_len lib.BN128_BITS N)
    ∧ (∀ i j, i < N → j < N → i ≠ j →
        (scalar_index lib.BN128_BITS i + lib.BN128_BITS / 64 ≤ scalar_index lib.BN128_BITS j
          ∨ scalar_index lib.BN128_BITS j + lib.BN128_BITS / 64
              ≤ scalar_index lib.BN128_BITS i)
        ∧ (point_index lib.BN128_BITS i + 2 * (lib.BN128_BITS / 64)
              ≤ point_index lib.BN128_BITS j
          ∨ point_index lib.BN128_BITS j + 2 * (lib.BN128_BITS / 64)
              ≤ point_index lib.BN128_BITS i))
    ∧ (∀ w, w < scalar_input_len lib.BN128_BITS N →
        ∃ i, i < N ∧ scalar_index lib.BN128_BITS i ≤ w
          ∧ w < scalar_index lib.BN128_BITS i + lib.BN128_BITS / 64)
    ∧ (∀ w, w < point_input_len lib.BN128_BITS N →
        ∃ i, i < N ∧ point_index lib.BN128_BITS i ≤ w
          ∧ w < point_index lib.BN128_BITS i + 2 * (lib.BN128_BITS / 64)) := by
  have hb := hs.aligned
  obtain ⟨hpl, hsl⟩ := input_len_eq hb hN
  have hW : 0 < lib.BN128_BITS / 64 := by
    obtain ⟨hpos, ⟨w, hw⟩, _⟩ := hb
    omega
  have step : ∀ L i j : Nat, i < j → i * L + L ≤ j * L := by
    intro L i j hij
    have h : (i + 1) * L ≤ j * L := Nat.mul_le_mul_right L hij
    rwa [Nat.add_mul, Nat.one_mul] at h
  have cover : ∀ L w : Nat, 0 < L → w < N * L →
      ∃ i, i < N ∧ i * L ≤ w ∧ w < i * L + L := by
    intro L w hL hw
    refine ⟨w / L, ?_, Nat.div_mul_le_self w L, ?_⟩
    · exact Nat.div_lt_of_lt_mul (by rwa [Nat.mul_comm] at hw)
    · have h := Nat.div_add_mod w L
      have h2 := Nat.mod_lt w hL
      rw [Nat.mul_comm] at h
      omega
  refine ⟨?_, ?_, ?_, ?_⟩
  · intro i hi
    obtain ⟨hp, hsc⟩ := index_eq hb hN hi
    obtain ⟨h1, h2⟩ := export_lengths lib hs N hN i hi
    refine ⟨h1, h2, hsc, by rw [hp]; ring, ?_, ?_⟩
    · rw [hsc, hsl]; exact step _ i N hi
    · rw [hp, hpl]; exact step _ i N hi
  · intro i j hi hj hij
    obtain ⟨hpi, hsi⟩ := index_eq hb hN hi
    obtain ⟨hpj, hsj⟩ := index_eq hb hN hj
    rw [hpi, hsi, hpj, hsj]
    rcases Nat.lt_or_gt_of_ne hij with h | h
    · exact ⟨Or.inl (step _ i j h), Or.inl (step _ i j h)⟩
    · exact ⟨Or.inr (step _ j i h), Or.inr (step _ j i h)⟩
  · intro w hw
    rw [hsl] at hw
    obtain ⟨i, hi, h1, h2⟩ := cover _ w hW hw
    refine ⟨i, hi, ?_⟩
    rw [(index_eq hb hN hi).2]
    exact ⟨h1, h2⟩
  · intro w hw
    rw [hpl] at hw
    obtain ⟨i, hi, h1, h2⟩ := cover _ w (by omega) hw
    refine ⟨i, hi, ?_⟩
    rw [(index_eq hb hN hi).1]
    exact ⟨h1, h2⟩

theorem bound_of_allocated {bits N : Nat} (hb : WordAligned bits)
    (hsize : 2 * (bits / 8) * N < 2 ^ 64)
    (halloc : Allocated (point_vector_size_bytes bits N)) :
    2 * bits * N < 2 ^ 64 := by
  have hp := point_bytes_eq hb hsize
  unfold Allocated at halloc
  rw [hp] at halloc
  obtain ⟨_, ⟨w, rfl⟩, _⟩ := hb
  have h64 : 64 * w / 64 = w := by omega
  rw [h64] at halloc
  have e1 : 8 * (2 * N * w) = 16 * (N * w) := by ring
  have e2 : 2 * (64 * w) * N = 128 * (N * w) := by ring
  rw [e1] at halloc
  rw [e2]
  omega

/-- C5: with BN128_BITS a positive multiple of 64, field elements exported on
W = BN128_BITS/64 words, a point count N whose byte sizes do not overflow 64
bits and a point vector that main has allocated (so that the loop is reached),
the words written for scalar i start at word i·W and those for point i at word
2·i·W, both stay inside their vectors, the ranges of different indices are
disjoint, and together they cover each input vector exactly. -/
theorem input_ranges (lib : Bn128 Af) (hs : lib.Serialises) (N : Nat)
    (hsize : 2 * (lib.BN128_BITS / 8) * N < 2 ^ 64)
    (halloc : Allocated (point_vector_size_bytes lib.BN128_BITS N)) :
    (∀ i, i < N →
        (lib.fe_export (i + 1)).length = lib.BN128_BITS / 64
        ∧ (lib.af_export (lib.to_mont_af (pt_mul lib.G1_af (i + 1)))).length
            = 2 * (lib.BN128_BITS / 64)
        ∧ scalar_index lib.BN128_BITS i = i * (lib.BN128_BITS / 64)
        ∧ point_index lib.BN128_BITS i = 2 * i * (lib.BN128_BITS / 64)
        ∧ scalar_index lib.BN128_BITS i + lib.BN128_BITS / 64
            ≤ scalar_input_len lib.BN128_BITS N
        ∧ point_index lib.BN128_BITS i + 2 * (lib.BN128_BITS / 64)
            ≤ point_input_len lib.BN128_BITS N)
    ∧ (∀ i j, i < N → j < N → i ≠ j →
        (scalar_index lib.BN128_BITS i + lib.BN128_BITS / 64 ≤ scalar_index lib.BN128_BITS j
          ∨ scalar_index lib.BN128_BITS j + lib.BN128_BITS / 64
              ≤ scalar_index lib.BN128_BITS i)
        ∧ (point_index lib.BN128_BITS i + 2 * (lib.BN128_BITS / 64)
              ≤ point_index lib.BN128_BITS j
          ∨ point_index lib.BN128_BITS j + 2 * (lib.BN128_BITS / 64)
              ≤ point_index lib.BN128_BITS i))
    ∧ (∀ w, w < scalar_input_len lib.BN128_BITS N →
        ∃ i, i < N ∧ scalar_index lib.BN128_BITS i ≤ w
          ∧ w < scalar_index lib.BN128_BITS i + lib.BN128_BITS / 64)
    ∧ (∀ w, w < point_input_len lib.BN128_BITS N →
        ∃ i, i < N ∧ point_index lib.BN128_BITS i ≤ w
          ∧ w < point_index lib.BN128_BITS i + 2 * (lib.BN128_BITS / 64)) :=
  layout_of_bound lib hs N (bound_of_allocated hs.aligned hsize halloc)

end Layout

/-! ### The small instance -/

theorem small_lib_serialises : small_lib.Serialises where
  aligned := by unfold WordAligned; decide
  fe_export_length := by intro a _; simp [small_lib]
  to_mont_lt := fun a =>
    Nat.lt_trans (Nat.mod_lt (a * 37) (by decide : 101 > 0)) (by decide : 101 < 2 ^ 256)

/-- Witness of C5: the small instance with N = 3, where the words of scalar 2 and
of point 2 end inside the two vectors. -/
theorem input_ranges_witness :
    scalar_index small_lib.BN128_BITS 2 + small_lib.BN128_BITS / 64
        ≤ scalar_input_len small_lib.BN128_BITS 3
      ∧ point_index small_lib.BN128_BITS 2 + 2 * (small_lib.BN128_BITS / 64)
        ≤ point_input_len small_lib.BN128_BITS 3 :=
  ((input_ranges small_lib small_lib_serialises 3 (by decide)
    (by unfold Allocated; decide)).1 2 (by decide)).2.2.2.2

/-! ### The test-data loop -/

theorem length_blocks (f : Nat → List Nat) (L : Nat) :
    ∀ n, (∀ j, j < n → (f j).length = L) → (blocks f n).length = n * L
  | 0, _ => by simp [blocks]
  | n + 1, h => by
    have ih := length_blocks f L n (fun j hj => h j (Nat.lt_succ_of_lt hj))
    simp only [blocks, List.length_append, ih, h n (Nat.lt_succ_self n)]
    ring

theorem slot_blocks (f : Nat → List Nat) (L : Nat) :
    ∀ n, (∀ j, j < n → (f j).length = L) → ∀ i, i < n →
      slot (blocks f n) (i * L) L = f i
  | 0, _, i, hi => absurd hi (Nat.not_lt_zero i)
  | n + 1, h, i, hi => by
    have hlen := length_blocks f L n (fun j hj => h j (Nat.lt_succ_of_lt hj))
    have hn := h n (Nat.lt_succ_self n)
    unfold slot
    simp only [blocks]
    rcases Nat.lt_succ_iff_lt_or_eq.mp hi with hlt | heq
    · have ih := slot_blocks f L n (fun j hj => h j (Nat.lt_succ_of_lt hj)) i hlt
      unfold slot at ih
      have hle : i * L + L ≤ n * L := by
        have h1 : (i + 1) * L ≤ n * L := Nat.mul_le_mul_right L hlt
        rwa [Nat.add_mul, Nat.one_mul] at h1
      rw [List.drop_append_of_le_length (by omega), List.take_append_of_le_length]
      · exact ih
      · rw [List.length_drop]; omega
    · subst heq
      rw [← hlen, List.drop_left, ← hn, List.take_length]

theorem writeAt_append (A B : List Nat) (r : Nat) :
    writeAt (A ++ List.replicate (B.length + r) 0) A.length B
      = some (A ++ B ++ List.replicate r 0) := by
  unfold writeAt
  rw [if_pos (by simp)]
  congr 1
  rw [List.take_left, List.drop_append_eq_append_drop]
  simp

section LoopProofs

variable {Af : Type} [AddCommGroup Af]

/-- The pair pushed for index `i`. -/
theorem loop_body_sw (lib : Bn128 Af) (i : Nat) (st st1 : TestData Af)
    (h : loop_body lib i st = some st1) :
    st1.sw_input_points = st.sw_input_points ++ [(pt_mul lib.G1_af (i + 1), i + 1)] := by
  unfold loop_body at h
  simp only at h
  split at h
  · exact absurd h (by simp)
  · split at h
    · exact absurd h (by simp)
    · injection h with h
      rw [← h]

theorem test_data_loop_sw (lib : Bn128 Af) :
    ∀ (k i : Nat) (st st1 : TestData Af), test_data_loop lib k i st = some st1 →
      st1.sw_input_points
        = st.sw_input_points
          ++ (List.range' i k).map (fun j => (pt_mul lib.G1_af (j + 1), j + 1))
  | 0, i, st, st1, h => by
    simp only [test_data_loop, Option.some.injEq] at h
    simp [h]
  | k + 1, i, st, st1, h => by
    simp only [test_data_loop] at h
    split at h
    · exact absurd h (by simp)
    · rename_i st2 hb
      rw [test_data_loop_sw lib k (i + 1) st2 st1 h, loop_body_sw lib i st st2 hb,
        List.range'_succ, List.map_cons, List.append_assoc]
      rfl

theorem create_test_data_sw (lib : Bn128 Af) (N : Nat) (d : TestData Af)
    (h : create_test_data lib N = some d) :
    d.sw_input_points
      = (List.range N).map (fun j => (pt_mul lib.G1_af (j + 1), j + 1)) := by
  unfold create_test_data at h
  rw [test_data_loop_sw lib N 0 _ d h, List.range_eq_range']
  simp

theorem test_data_loop_blocks (lib : Bn128 Af) (N : Nat)
    (hlen : ∀ j, j < N →
      (lib.af_export (lib.to_mont_af (pt_mul lib.G1_af (j + 1)))).length
        = 2 * (lib.BN128_BITS / 64)
      ∧ (lib.fe_export (j + 1)).length = lib.BN128_BITS / 64)
    (hidx : ∀ j, j < N →
      point_index lib.BN128_BITS j = j * (2 * (lib.BN128_BITS / 64))
      ∧ scalar_index lib.BN128_BITS j = j * (lib.BN128_BITS / 64)) :
    ∀ (k i : Nat) (st : TestData Af), i + k = N →
      st.point_input
        = blocks (fun j => lib.af_export (lib.to_mont_af (pt_mul lib.G1_af (j + 1)))) i
          ++ List.replicate (k * (2 * (lib.BN128_BITS / 64))) 0 →
      st.scalar_input
        = blocks (fun j => lib.fe_export (j + 1)) i
          ++ List.replicate (k * (lib.BN128_BITS / 64)) 0 →
      ∃ sw, test_data_loop lib k i st
        = some ⟨blocks (fun j => lib.af_export (lib.to_mont_af (pt_mul lib.G1_af (j + 1)))) N,
            blocks (fun j => lib.fe_export (j + 1)) N, sw⟩
  | 0, i, st, hik, hp, hsc => by
    have hi : i = N := by omega
    subst hi
    simp only [Nat.zero_mul, List.replicate_zero, List.append_nil] at hp hsc
    exact ⟨st.sw_input_points, by simp only [test_data_loop]; rw [← hp, ← hsc]⟩
  | k + 1, i, st, hik, hp, hsc => by
    have hi : i < N := by omega
    have hlp := length_blocks
      (fun j => lib.af_export (lib.to_mont_af (pt_mul lib.G1_af (j + 1))))
      (2 * (lib.BN128_BITS / 64)) i (fun j hj => (hlen j (by omega)).1)
    have hls := length_blocks (fun j => lib.fe_export (j + 1))
      (lib.BN128_BITS / 64) i (fun j hj => (hlen j (by omega)).2)
    have e1 : (k + 1) * (2 * (lib.BN128_BITS / 64))
        = (lib.af_export (lib.to_mont_af (pt_mul lib.G1_af (i + 1)))).length
          + k * (2 * (lib.BN128_BITS / 64)) := by
      rw [(hlen i hi).1]; ring
    have e2 : (k + 1) * (lib.BN128_BITS / 64)
        = (lib.fe_export (i + 1)).length + k * (lib.BN128_BITS / 64) := by
      rw [(hlen i hi).2]; ring
    have hbody : loop_body lib i st
        = some ⟨blocks (fun j => lib.af_export (lib.to_mont_af (pt_mul lib.G1_af (j + 1))))
              (i + 1) ++ List.replicate (k * (2 * (lib.BN128_BITS / 64))) 0,
            blocks (fun j => lib.fe_export (j + 1)) (i + 1)
              ++ List.replicate (k * (lib.BN128_BITS / 64)) 0,
            st.sw_input_points ++ [(pt_mul lib.G1_af (i + 1), i + 1)]⟩ := by
      unfold loop_body
      simp only
      rw [hp, hsc, (hidx i hi).1, (hidx i hi).2, ← hlp, ← hls, e1, e2,
        writeAt_append, writeAt_append]
      rfl
    simp only [test_data_loop, hbody]
    exact test_data_loop_blocks lib N hlen hidx k (i + 1) _ (by omega) rfl rfl

theorem create_test_data_blocks (lib : Bn128 Af) (hs : lib.Serialises) (N : Nat)
    (hN : 2 * lib.BN128_BITS * N < 2 ^ 64) :
    ∃ sw, create_test_data lib N
      = some ⟨blocks (fun j => lib.af_export (lib.to_mont_af (pt_mul lib.G1_af (j + 1)))) N,
          blocks (fun j => lib.fe_export (j + 1)) N, sw⟩ := by
  obtain ⟨hpl, hsl⟩ := input_len_eq hs.aligned hN
  unfold create_test_data
  refine test_data_loop_blocks lib N
    (fun j hj => ⟨(export_lengths lib hs N hN j hj).2, (export_lengths lib hs N hN j hj).1⟩)
    (fun j hj => index_eq hs.aligned hN hj) N 0 _ (by omega) ?_ ?_
  · simp [blocks, hpl]
  · simp [blocks, hsl]

/-- C3, amended: with BN128_BITS a positive multiple of 64, field elements
exported on W = BN128_BITS/64 words and a point count N with 2·BN128_BITS·N
below 2^64, the test-data loop completes and, for every i below N, slot i of
the point vector holds af_export of to_mont_af of P_i = pt_mul(G1, i+1), slot i
of the scalar vector holds fe_export of i+1, and entry i of the software list is
the pair (P_i, i+1). -/
theorem test_data_slots (lib : Bn128 Af) (hs : lib.Serialises) (N : Nat)
    (hN : 2 * lib.BN128_BITS * N < 2 ^ 64) :
    ∃ d, create_test_data lib N = some d ∧ ∀ i, i < N →
      slot d.point_input (2 * i * (lib.BN128_BITS / 64)) (2 * (lib.BN128_BITS / 64))
          = lib.af_export (lib.to_mont_af (pt_mul lib.G1_af (i + 1)))
      ∧ slot d.scalar_input (i * (lib.BN128_BITS / 64)) (lib.BN128_BITS / 64)
          = lib.fe_export (i + 1)
      ∧ d.sw_input_points[i]? = some (pt_mul lib.G1_af (i + 1), i + 1) := by
  obtain ⟨sw, h⟩ := create_test_data_blocks lib hs N hN
  refine ⟨_, h, fun i hi => ⟨?_, ?_, ?_⟩⟩
  · have e : 2 * i * (lib.BN128_BITS / 64) = i * (2 * (lib.BN128_BITS / 64)) := by ring
    rw [e]
    exact slot_blocks _ _ N (fun j hj => (export_lengths lib hs N hN j hj).2) i hi
  · exact slot_blocks _ _ N (fun j hj => (export_lengths lib hs N hN j hj).1) i hi
  · rw [create_test_data_sw lib N _ h]
    simp [hi]

end LoopProofs

/-- Witness of C3 (amended): the small instance with N = 2. -/
theorem test_data_slots_witness :
    ∃ d, create_test_data small_lib 2 = some d ∧ ∀ i, i < 2 →
      slot d.point_input (2 * i * (small_lib.BN128_BITS / 64)) (2 * (small_lib.BN128_BITS / 64))
          = small_lib.af_export (small_lib.to_mont_af (pt_mul small_lib.G1_af (i + 1)))
      ∧ slot d.scalar_input (i * (small_lib.BN128_BITS / 64)) (small_lib.BN128_BITS / 64)
          = small_lib.fe_export (i + 1)
      ∧ d.sw_input_points[i]? = some (pt_mul small_lib.G1_af (i + 1), i + 1) :=
  test_data_slots small_lib small_lib_serialises 2 (by decide)

/-- Counterexample to C3 as stated: with BN128_BITS = 256 and N = 2^59 the byte
sizes wrap to 0, both input vectors are empty, and the store for i = 0 already
falls outside them, so no slot holds the exported point. -/
theorem test_data_slots_overflow :
    point_input_len small_lib.BN128_BITS (2 ^ 59) = 0
      ∧ scalar_input_len small_lib.BN128_BITS (2 ^ 59) = 0
      ∧ ¬ ∃ d, create_test_data small_lib (2 ^ 59) = some d
          ∧ slot d.point_input (2 * 0 * (small_lib.BN128_BITS / 64))
              (2 * (small_lib.BN128_BITS / 64))
            = small_lib.af_export (small_lib.to_mont_af (pt_mul small_lib.G1_af (0 + 1))) := by
  refine ⟨by decide, by decide, ?_⟩
  rintro ⟨d, h, _⟩
  have hnone : (create_test_data small_lib (2 ^ 59)).isSome = false := by decide
  rw [h] at hnone
  exact absurd hnone (by simp)

/-! ### The software reference -/

section Reference

variable {Af : Type} [AddCommGroup Af]

theorem dbl_add_eq_nsmul (P : Af) :
    ∀ (fuel s : Nat), s ≤ fuel → dbl_add P fuel s = s • P
  | 0, s, h => by
    have hs : s = 0 := by omega
    subst hs
    simp [dbl_add]
  | fuel + 1, s, h => by
    unfold dbl_add
    by_cases hs : s = 0
    · subst hs; simp
    · rw [if_neg hs]
      simp only
      rw [dbl_add_eq_nsmul P fuel (s / 2) (by omega)]
      have hdm := Nat.div_add_mod s 2
      by_cases hodd : s % 2 = 1
      · rw [if_pos hodd]
        have e : s = s / 2 + s / 2 + 1 := by omega
        conv_rhs => rw [e]
        rw [add_nsmul, add_nsmul, one_nsmul]
      · rw [if_neg hodd]
        have e : s = s / 2 + s / 2 := by omega
        conv_rhs => rw [e]
        rw [add_nsmul]

theorem pt_mul_eq_nsmul (P : Af) (s : Nat) : pt_mul P s = s • P :=
  dbl_add_eq_nsmul P s s (Nat.le_refl s)

theorem multi_exp_append (l : List (Af × Nat)) (P : Af) (s : Nat) :
    multi_exp (l ++ [(P, s)]) = multi_exp l + pt_mul P s := by
  unfold multi_exp
  rw [List.foldl_append]
  rfl

theorem multi_exp_range (G : Af) :
    ∀ N : Nat, multi_exp ((List.range N).map (fun j => (pt_mul G (j + 1), j + 1)))
      = ∑ i in Finset.range N, (i + 1) • ((i + 1) • G)
  | 0 => by simp [multi_exp]
  | N + 1 => by
    rw [List.range_succ, List.map_append, List.map_singleton, multi_exp_append,
      multi_exp_range G N, Finset.sum_range_succ, pt_mul_eq_nsmul, pt_mul_eq_nsmul]

theorem sum_squares_nsmul (G : Af) :
    ∀ N : Nat, ∑ i in Finset.range N, (i + 1) • ((i + 1) • G)
      = (∑ i in Finset.range N, (i + 1) ^ 2) • G
  | 0 => by simp
  | N + 1 => by
    rw [Finset.sum_range_succ, Finset.sum_range_succ, sum_squares_nsmul G N]
    conv_rhs => rw [add_nsmul, pow_two, mul_nsmul']

theorem six_sum_squares :
    ∀ N : Nat, 6 * ∑ i in Finset.range N, (i + 1) ^ 2 = N * (N + 1) * (2 * N + 1)
  | 0 => by simp
  | N + 1 => by
    rw [Finset.sum_range_succ, Nat.mul_add, six_sum_squares N]
    ring

theorem sum_squares_closed (N : Nat) :
    ∑ i in Finset.range N, (i + 1) ^ 2 = N * (N + 1) * (2 * N + 1) / 6 := by
  rw [← six_sum_squares N]
  omega

/-- C2: when the test-data loop completes for a point count N, the software list
has N entries, entry i is the pair (pt_mul(G1, i+1), i+1) with pt_mul(G1, i+1)
the (i+1)-fold multiple of G1, and multi_exp of the list, the fold of the group
addition over the scalar multiples, is the sum over i from 1 to N of i·(i·G1),
which is (N(N+1)(2N+1)/6)·G1: 14·G1 for N = 3, the point at infinity for N = 0. -/
theorem sw_reference (lib : Bn128 Af) (N : Nat) (d : TestData Af)
    (h : create_test_data lib N = some d) :
    d.sw_input_points.length = N
      ∧ (∀ i, i < N →
          d.sw_input_points[i]? = some (pt_mul lib.G1_af (i + 1), i + 1)
          ∧ pt_mul lib.G1_af (i + 1) = (i + 1) • lib.G1_af)
      ∧ multi_exp d.sw_input_points
          = ∑ i in Finset.range N, (i + 1) • ((i + 1) • lib.G1_af)
      ∧ multi_exp d.sw_input_points
          = (∑ i in Finset.range N, (i + 1) ^ 2) • lib.G1_af
      ∧ multi_exp d.sw_input_points = (N * (N + 1) * (2 * N + 1) / 6) • lib.G1_af
      ∧ (N = 3 → multi_exp d.sw_input_points = 14 • lib.G1_af)
      ∧ (N = 0 → multi_exp d.sw_input_points = 0) := by
  have hsw := create_test_data_sw lib N d h
  have hsum : multi_exp d.sw_input_points
      = ∑ i in Finset.range N, (i + 1) • ((i + 1) • lib.G1_af) := by
    rw [hsw]; exact multi_exp_range lib.G1_af N
  have hclosed : multi_exp d.sw_input_points
      = (N * (N + 1) * (2 * N + 1) / 6) • lib.G1_af := by
    rw [hsum, sum_squares_nsmul, sum_squares_closed]
  refine ⟨by rw [hsw]; simp, ?_, hsum, by rw [hsum, sum_squares_nsmul], hclosed, ?_, ?_⟩
  · intro i hi
    refine ⟨?_, pt_mul_eq_nsmul _ _⟩
    rw [hsw]
    simp [hi]
  · intro h3
    subst h3
    rw [hclosed]
  · intro h0
    subst h0
    rw [hclosed]
    simp

end Reference

/-- Witness of C2: the small instance with N = 3, where the expected result is
14 times the generator. -/
theorem sw_reference_witness :
    ∃ d, create_test_data small_lib 3 = some d
      ∧ multi_exp d.sw_input_points = 14 • small_lib.G1_af := by
  obtain ⟨sw, h⟩ := create_test_data_blocks small_lib small_lib_serialises 3 (by decide)
  exact ⟨_, h, (sw_reference small_lib 3 _ h).2.2.2.2.2.1 rfl⟩

/-! ### The device loop and the checked calls -/

theorem device_loop_valid_iff (ok : Action → Bool) :
    ∀ (n i k : Nat), (device_loop ok n i).2 = .valid k ↔
      (i ≤ k ∧ k < i + n
        ∧ (∀ j, i ≤ j → j < k → ok (.create_context j) = true ∧ ok (.create_queue j) = true
            ∧ ok (.create_program j) = false)
        ∧ ok (.create_context k) = true ∧ ok (.create_queue k) = true
        ∧ ok (.create_program k) = true ∧ ok (.create_kernel k) = true)
  | 0, i, k => by
    simp only [device_loop]
    constructor
    · intro h; exact absurd h (by simp)
    · rintro ⟨h1, h2, _⟩; omega
  | n + 1, i, k => by
    have ih := device_loop_valid_iff ok n (i + 1) k
    unfold device_loop
    by_cases hc : ok (.create_context i) = false
    · rw [if_pos hc]
      constructor
      · intro h; exact absurd h (by simp)
      · rintro ⟨h1, _, hbefore, hck, _⟩
        rcases Nat.eq_or_lt_of_le h1 with e | e
        · subst e; rw [hc] at hck; exact absurd hck (by simp)
        · have := (hbefore i (Nat.le_refl i) e).1
          rw [hc] at this; exact absurd this (by simp)
    rw [if_neg hc]
    by_cases hq : ok (.create_queue i) = false
    · rw [if_pos hq]
      constructor
      · intro h; exact absurd h (by simp)
      · rintro ⟨h1, _, hbefore, _, hqk, _⟩
        rcases Nat.eq_or_lt_of_le h1 with e | e
        · subst e; rw [hq] at hqk; exact absurd hqk (by simp)
        · have := (hbefore i (Nat.le_refl i) e).2.1
          rw [hq] at this; exact absurd this (by simp)
    rw [if_neg hq]
    by_cases hp : ok (.create_program i) = false
    · rw [if_pos hp]
      simp only
      rw [ih]
      constructor
      · rintro ⟨h1, h2, hbefore, hrest⟩
        refine ⟨by omega, by omega, ?_, hrest⟩
        intro j hj1 hj2
        rcases Nat.eq_or_lt_of_le hj1 with e | e
        · subst e
          exact ⟨by simpa using hc, by simpa using hq, hp⟩
        · exact hbefore j e hj2
      · rintro ⟨h1, h2, hbefore, hrest⟩
        have hne : i ≠ k := by
          intro e; subst e
          rw [hp] at hrest; exact absurd hrest.2.2.1 (by simp)
        refine ⟨by omega, by omega, ?_, hrest⟩
        intro j hj1 hj2
        exact hbefore j (by omega) hj2
    rw [if_neg hp]
    have hlast : ∀ o : DeviceOutcome, (o = .valid k → k = i ∧ ok (.create_kernel i) = true) →
        (k = i → ok (.create_kernel i) = true → o = .valid k) →
        (o = .valid k ↔
          (i ≤ k ∧ k < i + (n + 1)
            ∧ (∀ j, i ≤ j → j < k → ok (.create_context j) = true
                ∧ ok (.create_queue j) = true ∧ ok (.create_program j) = false)
            ∧ ok (.create_context k) = true ∧ ok (.create_queue k) = true
            ∧ ok (.create_program k) = true ∧ ok (.create_kernel k) = true)) := by
      intro o h1 h2
      constructor
      · intro h
        obtain ⟨e, hk⟩ := h1 h
        subst e
        exact ⟨Nat.le_refl _, by omega, fun j a b => by omega,
          by simpa using hc, by simpa using hq, by simpa using hp, hk⟩
      · rintro ⟨h3, _, hbefore, _, _, _, hk⟩
        rcases Nat.eq_or_lt_of_le h3 with e | e
        · subst e; exact h2 rfl hk
        · have := (hbefore i (Nat.le_refl i) e).2.2
          exact absurd this hp
    by_cases hk : ok (.create_kernel i) = false
    · rw [if_pos hk]
      exact hlast _ (fun h => absurd h (by simp))
        (fun _ h => by rw [hk] at h; exact absurd h (by simp))
    · rw [if_neg hk]
      exact hlast _ (fun h => by
        simp only [DeviceOutcome.valid.injEq] at h
        exact ⟨h.symm, by simpa using hk⟩) (fun e _ => by rw [e])

theorem device_loop_programmed_iff (env : Env) (k : Nat) :
    (device_loop env.ok env.devices 0).2 = .valid k ↔ Programmed env k := by
  rw [device_loop_valid_iff]
  unfold Programmed
  constructor
  · rintro ⟨_, h2, h3, h4⟩
    exact ⟨by omega, fun j hj => h3 j (Nat.zero_le j) hj, h4⟩
  · rintro ⟨h2, h3, h4⟩
    exact ⟨Nat.zero_le k, by omega, fun j _ hj => h3 j hj, h4⟩

theorem run_checked_all (ok : Action → Bool) :
    ∀ l : List Action, (run_checked ok l).2 = true ↔ ∀ a, a ∈ l → ok a = true
  | [] => by simp [run_checked]
  | a :: rest => by
    have ih := run_checked_all ok rest
    unfold run_checked
    by_cases h : ok a = false
    · rw [if_pos h]
      simp only [List.mem_cons, forall_eq_or_imp, h]
      simp
    · rw [if_neg h]
      simp only [List.mem_cons, forall_eq_or_imp, ih]
      simp only [Bool.not_eq_false] at h
      simp [h]

theorem run_checked_segment (ok : Action → Bool) :
    ∀ l : List Action, ∃ s, (run_checked ok l).1 ++ s = l
      ∧ ((run_checked ok l).2 = true → s = [])
  | [] => ⟨[], by simp [run_checked]⟩
  | a :: rest => by
    obtain ⟨s, hs, hs2⟩ := run_checked_segment ok rest
    unfold run_checked
    by_cases h : ok a = false
    · rw [if_pos h]
      exact ⟨rest, by simp, fun h2 => absurd h2 (by simp)⟩
    · rw [if_neg h]
      exact ⟨s, by simp [hs], hs2⟩

/-! ### The runs of `main` -/

section Runs

variable {Af : Type} [AddCommGroup Af] [DecidableEq Af]

theorem main_usage (lib : Bn128 Af) (env : Env) (h : env.argv.length ≠ 3) :
    main lib env = some ⟨EXIT_FAILURE, [.usage], 0, false, none, none, none⟩ := by
  unfold main
  rw [if_pos h]

/-- The shapes a run of `main` can take. -/
theorem main_cases (lib : Bn128 Af) (env : Env) (r : Run Af) (h : main lib env = some r) :
    (env.argv.length ≠ 3 ∧ r = ⟨EXIT_FAILURE, [.usage], 0, false, none, none, none⟩)
    ∨ (env.argv.length = 3 ∧
        ∃ d, create_test_data lib (parse_num_in (env.argv.getD 2 "")) = some d ∧
          (((∀ k, (device_loop env.ok env.devices 0).2 ≠ .valid k)
              ∧ r = ⟨EXIT_FAILURE, (device_loop env.ok env.devices 0).1, 0, false,
                  some (multi_exp d.sw_input_points), none, none⟩)
          ∨ ((∃ k, (device_loop env.ok env.devices 0).2 = .valid k)
              ∧ (run_checked env.ok (checked_calls lib.BN128_BITS
                  (parse_num_in (env.argv.getD 2 "")))).2 = false
              ∧ r = ⟨EXIT_FAILURE, (device_loop env.ok env.devices 0).1
                    ++ (run_checked env.ok (checked_calls lib.BN128_BITS
                        (parse_num_in (env.argv.getD 2 "")))).1, 1, false,
                  some (multi_exp d.sw_input_points), none, none⟩)
          ∨ ((∃ k, (device_loop env.ok env.devices 0).2 = .valid k)
              ∧ (run_checked env.ok (checked_calls lib.BN128_BITS
                  (parse_num_in (env.argv.getD 2 "")))).2 = true
              ∧ r = ⟨if decode_result lib env (parse_num_in (env.argv.getD 2 "")) d
                        = multi_exp d.sw_input_points then EXIT_SUCCESS else EXIT_FAILURE,
                  (device_loop env.ok env.devices 0).1
                    ++ (run_checked env.ok (checked_calls lib.BN128_BITS
                        (parse_num_in (env.argv.getD 2 "")))).1 ++ [.jb_import], 1,
                  decide (decode_result lib env (parse_num_in (env.argv.getD 2 "")) d
                        = multi_exp d.sw_input_points),
                  some (multi_exp d.sw_input_points),
                  some (decode_result lib env (parse_num_in (env.argv.getD 2 "")) d),
                  some (longToU64 (timer_end env.end_clock env.start_clock))⟩))) := by
  by_cases hargs : env.argv.length ≠ 3
  · left
    rw [main_usage lib env hargs] at h
    injection h with h
    exact ⟨hargs, h.symm⟩
  · right
    have hargs3 : env.argv.length = 3 := by omega
    refine ⟨hargs3, ?_⟩
    unfold main at h
    rw [if_neg hargs] at h
    simp only at h
    split at h
    · exact absurd h (by simp)
    · rename_i d hd
      refine ⟨d, hd, ?_⟩
      split at h
      · rename_i hdev
        left
        injection h with h
        exact ⟨fun k hk => by rw [hdev] at hk; exact absurd hk (by simp), h.symm⟩
      · rename_i hdev
        left
        injection h with h
        exact ⟨fun k hk => by rw [hdev] at hk; exact absurd hk (by simp), h.symm⟩
      · rename_i k hdev
        right
        split at h
        · rename_i hcalls
          left
          injection h with h
          exact ⟨⟨k, hdev⟩, hcalls, h.symm⟩
        · rename_i hcalls
          right
          refine ⟨⟨k, hdev⟩, by simpa using hcalls, ?_⟩
          split at h
          · rename_i heq
            injection h with h
            rw [← h, if_pos heq, decide_eq_true heq]
          · rename_i hne
            injection h with h
            rw [← h, if_neg hne, decide_eq_false hne]

end Runs

/-! ### Exit code -/

section ExitCode

variable {Af : Type} [AddCommGroup Af] [DecidableEq Af]

/-- C1: for a run of main that terminates, the exit code is 0 exactly when two
arguments were given, a device was programmed, no checked OpenCL call failed and
the point decoded from the result buffer by jb_import and mont_jb_to_af equals
the multi_exp of the software list; every other run ends with EXIT_FAILURE, and
the match message is printed exactly in the runs that exit with 0. -/
theorem exit_code_zero_iff (lib : Bn128 Af) (env : Env) (r : Run Af)
    (h : main lib env = some r) :
    (r.exit_code = 0 ↔
      env.argv.length = 3
      ∧ (∃ k, Programmed env k)
      ∧ (∀ a, a ∈ checked_calls lib.BN128_BITS (parse_num_in (env.argv.getD 2 "")) →
          env.ok a = true)
      ∧ ∃ d, create_test_data lib (parse_num_in (env.argv.getD 2 "")) = some d
          ∧ decode_result lib env (parse_num_in (env.argv.getD 2 "")) d
              = multi_exp d.sw_input_points)
    ∧ (r.exit_code ≠ 0 → r.exit_code = EXIT_FAILURE ∧ EXIT_FAILURE ≠ 0)
    ∧ (r.reported_match = true ↔ r.exit_code = 0) := by
  rcases main_cases lib env r h with ⟨hargs, hr⟩ | ⟨hargs, d, hd, hcase⟩
  · subst hr
    refine ⟨⟨fun h0 => absurd h0 (by simp [EXIT_FAILURE]), fun h1 => absurd h1.1 hargs⟩,
      fun _ => ⟨rfl, by simp [EXIT_FAILURE]⟩, by simp [EXIT_FAILURE]⟩
  · rcases hcase with ⟨hdev, hr⟩ | ⟨hdev, hcalls, hr⟩ | ⟨hdev, hcalls, hr⟩
    · subst hr
      refine ⟨⟨fun h0 => absurd h0 (by simp [EXIT_FAILURE]), ?_⟩,
        fun _ => ⟨rfl, by simp [EXIT_FAILURE]⟩, by simp [EXIT_FAILURE]⟩
      rintro ⟨_, ⟨k, hk⟩, _⟩
      exact absurd ((device_loop_programmed_iff env k).mpr hk) (hdev k)
    · subst hr
      refine ⟨⟨fun h0 => absurd h0 (by simp [EXIT_FAILURE]), ?_⟩,
        fun _ => ⟨rfl, by simp [EXIT_FAILURE]⟩, by simp [EXIT_FAILURE]⟩
      rintro ⟨_, _, hall, _⟩
      rw [(run_checked_all env.ok _).mpr hall] at hcalls
      exact absurd hcalls (by simp)
    · obtain ⟨k, hk⟩ := hdev
      subst hr
      by_cases heq : decode_result lib env (parse_num_in (env.argv.getD 2 "")) d
          = multi_exp d.sw_input_points
      · rw [if_pos heq, decide_eq_true heq]
        refine ⟨⟨fun _ => ⟨hargs, ⟨k, (device_loop_programmed_iff env k).mp hk⟩,
          (run_checked_all env.ok _).mp hcalls, d, hd, heq⟩, fun _ => rfl⟩,
          fun hne => absurd rfl hne, by simp [EXIT_SUCCESS]⟩
      · rw [if_neg heq, decide_eq_false heq]
        refine ⟨⟨fun h0 => absurd h0 (by simp [EXIT_FAILURE]), ?_⟩,
          fun _ => ⟨rfl, by simp [EXIT_FAILURE]⟩, by simp [EXIT_FAILURE]⟩
        rintro ⟨_, _, _, d2, hd2, heq2⟩
        rw [hd] at hd2
        injection hd2 with hd2
        subst hd2
        exact absurd heq2 heq

end ExitCode

/-- Witness of C1: on the small instance with N = 2 and an accelerator that
returns 5 times the generator, main terminates and exits with 0. -/
theorem exit_code_zero_iff_witness :
    ∃ r, main small_lib (small_env "2" 5) = some r ∧ r.exit_code = 0
      ∧ r.reported_match = true := by
  cases hm : main small_lib (small_env "2" 5) with
  | none =>
    have hsome : (main small_lib (small_env "2" 5)).isSome = true := by decide
    rw [hm] at hsome
    exact absurd hsome (by simp)
  | some r =>
    have hcode : (main small_lib (small_env "2" 5)).map (fun r => r.exit_code) = some 0 := by
      decide
    rw [hm] at hcode
    have h0 : r.exit_code = 0 := by simpa using hcode
    exact ⟨r, rfl, h0, (exit_code_zero_iff small_lib (small_env "2" 5) r hm).2.2.mpr h0⟩

/-! ### Completeness of the verification path -/

theorem blit_same_length (old out : List Nat) (h : out.length = old.length) :
    blit old out = out := by
  unfold blit
  rw [← h, List.take_left]

theorem decode_of_result {Af : Type} (lib : Bn128 Af) (hs : lib.Serialises) (env : Env)
    (N : Nat) (d : TestData Af) (J : jb_fp_t)
    (hacc : env.device_result N d.point_input d.scalar_input
      = lib.jb_export (lib.to_mont_jb J)) :
    decode_result lib env N d
      = lib.mont_jb_to_af (lib.jb_import (lib.jb_export (lib.to_mont_jb J))) := by
  have hlen : (lib.jb_export (lib.to_mont_jb J)).length
      = (List.replicate (hw_result_len lib.BN128_BITS) 0).length := by
    have hr := result_bytes_eq hs.aligned
    unfold Bn128.jb_export Bn128.to_mont_jb hw_result_len
    rw [List.length_append, List.length_append, hs.fe_export_length _ (hs.to_mont_lt _),
      hs.fe_export_length _ (hs.to_mont_lt _), hs.fe_export_length _ (hs.to_mont_lt _),
      List.length_replicate, hr]
    omega
  unfold decode_result hw_result_vector
  simp only
  rw [hacc, blit_same_length _ _ hlen]

theorem decode_encoded {Af : Type} (lib : Bn128 Af) (Represents : jb_fp_t → Af → Prop)
    (hs : lib.Serialises) (hl : lib.Lawful Represents) (J : jb_fp_t) (P : Af)
    (hJ : J.x < lib.modulus ∧ J.y < lib.modulus ∧ J.z < lib.modulus)
    (hrep : Represents J P) :
    lib.mont_jb_to_af (lib.jb_import (lib.jb_export (lib.to_mont_jb J))) = P := by
  rw [hl.jb_import_export _ (hs.to_mont_lt _) (hs.to_mont_lt _) (hs.to_mont_lt _)]
  unfold Bn128.mont_jb_to_af Bn128.to_mont_jb
  simp only
  rw [hl.from_mont_to_mont _ hJ.1, hl.from_mont_to_mont _ hJ.2.1,
    hl.from_mont_to_mont _ hJ.2.2]
  exact hl.jb_to_af_represents J P hrep

section Completeness

variable {Af : Type} [AddCommGroup Af] [DecidableEq Af]

theorem main_decoded (lib : Bn128 Af) (env : Env) (d : TestData Af) (k : Nat)
    (hargs : env.argv.length = 3)
    (hd : create_test_data lib (parse_num_in (env.argv.getD 2 "")) = some d)
    (hdev : (device_loop env.ok env.devices 0).2 = .valid k)
    (hcalls : (run_checked env.ok (checked_calls lib.BN128_BITS
      (parse_num_in (env.argv.getD 2 "")))).2 = true)
    (heq : decode_result lib env (parse_num_in (env.argv.getD 2 "")) d
      = multi_exp d.sw_input_points) :
    main lib env = some ⟨EXIT_SUCCESS,
      (device_loop env.ok env.devices 0).1
        ++ (run_checked env.ok (checked_calls lib.BN128_BITS
            (parse_num_in (env.argv.getD 2 "")))).1 ++ [.jb_import], 1, true,
      some (multi_exp d.sw_input_points),
      some (decode_result lib env (parse_num_in (env.argv.getD 2 "")) d),
      some (longToU64 (timer_end env.end_clock env.start_clock))⟩ := by
  unfold main
  rw [if_neg (by omega)]
  simp only [hd, hdev, hcalls]
  rw [if_neg (by simp), if_pos heq]

/-- C6: under the library laws (jb_import inverts the Jacobian export, leaving
Montgomery form undoes entering it, Jacobian to affine returns the represented
point), in a run with two arguments whose loop completes, whose device is
programmed and whose checked calls succeed, if the accelerator writes the
encoding, X then Y then Z in Montgomery form, of any Jacobian representative of
the group sum of (i+1)·P_i, then the point main decodes equals the software
multi_exp result and main returns 0. -/
theorem accelerator_result_accepted (lib : Bn128 Af) (Represents : jb_fp_t → Af → Prop)
    (hs : lib.Serialises) (hl : lib.Lawful Represents) (env : Env)
    (d : TestData Af) (J : jb_fp_t)
    (hargs : env.argv.length = 3)
    (hd : create_test_data lib (parse_num_in (env.argv.getD 2 "")) = some d)
    (hdev : ∃ k, Programmed env k)
    (hok : ∀ a, a ∈ checked_calls lib.BN128_BITS (parse_num_in (env.argv.getD 2 "")) →
      env.ok a = true)
    (hJ : J.x < lib.modulus ∧ J.y < lib.modulus ∧ J.z < lib.modulus)
    (hrep : Represents J (∑ i in Finset.range (parse_num_in (env.argv.getD 2 "")),
      (i + 1) • pt_mul lib.G1_af (i + 1)))
    (hacc : env.device_result (parse_num_in (env.argv.getD 2 "")) d.point_input
        d.scalar_input = lib.jb_export (lib.to_mont_jb J)) :
    ∃ r, main lib env = some r
      ∧ r.res_af = some (lib.mont_jb_to_af (lib.jb_import (lib.jb_export (lib.to_mont_jb J))))
      ∧ r.sw_result = some (multi_exp d.sw_input_points)
      ∧ r.res_af = r.sw_result
      ∧ r.exit_code = 0 ∧ r.reported_match = true := by
  obtain ⟨k, hk⟩ := hdev
  have hsum : multi_exp d.sw_input_points
      = ∑ i in Finset.range (parse_num_in (env.argv.getD 2 "")),
          (i + 1) • pt_mul lib.G1_af (i + 1) := by
    rw [create_test_data_sw lib _ d hd, multi_exp_range]
    exact Finset.sum_congr rfl (fun i _ => by rw [pt_mul_eq_nsmul])
  have hdec2 := decode_of_result lib hs env _ d J hacc
  have hdec := decode_encoded lib Represents hs hl J _ hJ hrep
  have hmain := main_decoded lib env d k hargs hd
    ((device_loop_programmed_iff env k).mpr hk) ((run_checked_all env.ok _).mpr hok)
    (by rw [hdec2, hdec, hsum])
  refine ⟨_, hmain, ?_, rfl, ?_, rfl, rfl⟩
  · show some _ = some _
    rw [hdec2]
  · show some _ = some _
    rw [hdec2, hdec, hsum]

end Completeness

theorem small_lib_lawful : small_lib.Lawful small_represents where
  jb_import_export := by
    intro j hx hy hz
    obtain ⟨x, y, z⟩ := j
    simp only [small_lib] at hx hy hz
    simp only [small_lib, Bn128.jb_export, List.cons_append, List.nil_append, List.getD_cons_zero,
      List.getD_cons_succ, jb_fp_t.mk.injEq]
    refine ⟨?_, ?_, ?_⟩ <;> omega
  from_mont_to_mont := by
    intro a ha
    simp only [small_lib] at ha ⊢
    omega
  jb_to_af_represents := by
    intro j P h
    simp only [small_lib]
    rcases h with ⟨hz, hx⟩ | ⟨hz, hP⟩
    · rw [if_neg hz]; exact hx
    · rw [if_pos hz]; exact hP.symm

/-- Witness of C6: the small instance with N = 2, the accelerator returning the
triple (5, 0, 1) that represents 1·G + 2·(2G) = 5·G. -/
theorem accelerator_result_accepted_witness :
    ∃ r, main small_lib (small_env "2" 5) = some r ∧ r.res_af = r.sw_result
      ∧ r.exit_code = 0 := by
  obtain ⟨sw, hd⟩ := create_test_data_blocks small_lib small_lib_serialises 2 (by decide)
  have hN : parse_num_in ((small_env "2" 5).argv.getD 2 "") = 2 := by decide
  obtain ⟨r, hr, _, _, h1, h2, _⟩ := accelerator_result_accepted small_lib small_represents
    small_lib_serialises small_lib_lawful (small_env "2" 5) _ ⟨5, 0, 1⟩ rfl
    (by rw [hN]; exact hd) ⟨1, by unfold Programmed; decide⟩
    (by rw [hN]; decide) (by decide)
    (by rw [hN]; exact Or.inl ⟨by decide, by decide⟩) rfl
  exact ⟨r, hr, h1, h2⟩

/-! ### Command-line arguments -/

section Arguments

variable {Af : Type} [AddCommGroup Af] [DecidableEq Af]

/-- C8, amended: a run with an argument count other than two prints the usage
line, makes no accelerator call and exits with EXIT_FAILURE without reporting a
match; the text of the point-count argument is not validated, it reaches the run
only through the number strtol makes of it, so two command lines whose count
arguments convert to the same number give the same run. -/
theorem count_argument_unvalidated (lib : Bn128 Af) (env env2 : Env) :
    (env.argv.length ≠ 3 →
      ∃ r, main lib env = some r ∧ r.exit_code = EXIT_FAILURE ∧ EXIT_FAILURE ≠ 0
        ∧ r.reported_match = false ∧ r.trace = [.usage])
    ∧ (env.argv.length = 3 → env2.argv.length = 3 →
        parse_num_in (env2.argv.getD 2 "") = parse_num_in (env.argv.getD 2 "") →
        env2.devices = env.devices → env2.ok = env.ok →
        env2.device_result = env.device_result →
        env2.start_clock = env.start_clock → env2.end_clock = env.end_clock →
        main lib env2 = main lib env) := by
  constructor
  · intro h
    exact ⟨_, main_usage lib env h, rfl, by simp [EXIT_FAILURE], rfl, rfl⟩
  · intro h1 h2 hn hd hok hres hs he
    unfold main decode_result hw_result_vector
    rw [if_neg (by omega), if_neg (by omega)]
    simp only [hn, hd, hok, hres, hs, he]

end Arguments

/-- Witness of C8 (amended): on the small instance the count arguments `1x` and
`1` give the same run. -/
theorem count_argument_unvalidated_witness :
    main small_lib (small_env "1x" 1) = main small_lib (small_env "1" 1) :=
  (count_argument_unvalidated small_lib (small_env "1" 1) (small_env "1x" 1)).2
    rfl rfl (by decide) rfl rfl rfl rfl rfl

/-- Counterexample to C8 as stated: the count argument `1x` is not a number, yet
strtol reads it as 1, the run goes on with one point and, the accelerator
returning the generator, main reports a match and exits with 0; the texts `abc`
and the empty text are read as 0 and `-1` as 2^64 - 1, none is rejected. -/
theorem invalid_count_accepted :
    parse_num_in "1x" = 1
      ∧ (main small_lib (small_env "1x" 1)).map
          (fun r => (r.exit_code, r.reported_match)) = some (0, true)
      ∧ parse_num_in "abc" = 0 ∧ parse_num_in "" = 0
      ∧ parse_num_in "-1" = 2 ^ 64 - 1 := by
  refine ⟨?_, ?_, ?_, ?_, ?_⟩ <;> decide

/-! ### Traces -/

theorem guarded_sound (b a : Action) (hab : a ≠ b) :
    ∀ l : List Action, guarded b a l = true →
      ∀ l1 l2, l = l1 ++ a :: l2 → b ∈ l1
  | [], _, l1, l2, h => by simp at h
  | x :: xs, hg, l1, l2, h => by
    cases l1 with
    | nil =>
      simp only [List.nil_append, List.cons.injEq] at h
      obtain ⟨hx, _⟩ := h
      subst hx
      unfold guarded at hg
      rw [if_neg hab, if_pos rfl] at hg
      exact absurd hg (by simp)
    | cons y ys =>
      simp only [List.cons_append, List.cons.injEq] at h
      obtain ⟨hx, hxs⟩ := h
      subst hx
      unfold guarded at hg
      by_cases hxb : x = b
      · subst hxb; exact List.mem_cons_self _ _
      · rw [if_neg hxb] at hg
        by_cases hxa : x = a
        · rw [if_pos hxa] at hg; exact absurd hg (by simp)
        · rw [if_neg hxa] at hg
          exact List.mem_cons_of_mem _ (guarded_sound b a hab xs hg ys l2 hxs)

theorem split_in_segment (a : Action) (T s D full l1 l2 : List Action)
    (h : T ++ s = D ++ full) (hT : T = l1 ++ a :: l2) (ha : a ∉ D) :
    ∃ m1 m2, full = m1 ++ a :: m2 ∧ l1 = D ++ m1 := by
  subst hT
  rw [List.append_assoc, List.cons_append] at h
  rcases List.append_eq_append_iff.mp h with ⟨c, h1, h2⟩ | ⟨c, h1, h2⟩
  · cases c with
    | nil =>
      simp only [List.nil_append] at h2
      simp only [List.append_nil] at h1
      exact ⟨[], l2 ++ s, h2.symm, by simp [h1]⟩
    | cons x c =>
      simp only [List.cons_append, List.cons.injEq] at h2
      obtain ⟨hx, _⟩ := h2
      subst hx
      exact absurd (by rw [h1]; simp) ha
  · exact ⟨c, l2 ++ s, h2, h1⟩

theorem device_loop_devices (ok : Action → Bool) :
    ∀ (n i : Nat) (a : Action), a ∈ (device_loop ok n i).1 → a.device ≠ none
  | 0, i, a, h => by simp [device_loop] at h
  | n + 1, i, a, h => by
    have ih := device_loop_devices ok n (i + 1) a
    unfold device_loop at h
    split_ifs at h
    · simp only [List.mem_singleton] at h
      subst h; simp [Action.device]
    · simp only [List.mem_cons, List.mem_singleton, List.not_mem_nil, or_false] at h
      rcases h with h | h <;> subst h <;> simp [Action.device]
    · simp only [List.mem_cons] at h
      rcases h with h | h | h | h
      · subst h; simp [Action.device]
      · subst h; simp [Action.device]
      · subst h; simp [Action.device]
      · exact ih h
    · simp only [List.mem_cons, List.mem_singleton, List.not_mem_nil, or_false] at h
      rcases h with h | h | h | h <;> subst h <;> simp [Action.device]
    · simp only [List.mem_cons, List.mem_singleton, List.not_mem_nil, or_false] at h
      rcases h with h | h | h | h <;> subst h <;> simp [Action.device]

theorem checked_calls_device (bits N : Nat) (a : Action)
    (h : a ∈ checked_calls bits N ++ [.jb_import]) : a.device = none := by
  simp only [checked_calls, List.cons_append, List.nil_append, List.mem_cons, List.mem_singleton,
    List.not_mem_nil, or_false] at h
  rcases h with h | h | h | h | h | h | h | h | h | h | h | h <;> subst h <;> rfl

theorem device_loop_trace_programmed (ok : Action → Bool) :
    ∀ (n i k : Nat), i ≤ k → k < i + n →
      (∀ j, i ≤ j → j < k → ok (.create_context j) = true ∧ ok (.create_queue j) = true
        ∧ ok (.create_program j) = false) →
      ok (.create_context k) = true → ok (.create_queue k) = true →
      ok (.create_program k) = true →
      (device_loop ok n i).1
        = failed_tries i (k - i)
          ++ [.create_context k, .create_queue k, .create_program k, .create_kernel k]
  | 0, i, k, h1, h2, _, _, _, _ => by omega
  | n + 1, i, k, h1, h2, hb, hc, hq, hp => by
    unfold device_loop
    rcases Nat.eq_or_lt_of_le h1 with e | e
    · subst e
      rw [if_neg (by simp [hc]), if_neg (by simp [hq]), if_neg (by simp [hp]), Nat.sub_self]
      split_ifs <;> rfl
    · obtain ⟨hci, hqi, hpi⟩ := hb i (Nat.le_refl i) e
      rw [if_neg (by simp [hci]), if_neg (by simp [hqi]), if_pos hpi]
      simp only
      rw [device_loop_trace_programmed ok n (i + 1) k (by omega) (by omega)
        (fun j hj1 hj2 => hb j (by omega) hj2) hc hq hp]
      have e2 : k - i = (k - (i + 1)) + 1 := by omega
      rw [e2]
      rfl

theorem device_loop_none (ok : Action → Bool) :
    ∀ (n i : Nat),
      (∀ j, i ≤ j → j < i + n → ok (.create_context j) = true ∧ ok (.create_queue j) = true
        ∧ ok (.create_program j) = false) →
      device_loop ok n i = (failed_tries i n, .none_valid)
  | 0, i, _ => rfl
  | n + 1, i, hb => by
    unfold device_loop
    obtain ⟨hci, hqi, hpi⟩ := hb i (Nat.le_refl i) (by omega)
    rw [if_neg (by simp [hci]), if_neg (by simp [hqi]), if_pos hpi]
    simp only
    rw [device_loop_none ok n (i + 1) (fun j hj1 hj2 => hb j (by omega) (by omega))]
    rfl

theorem mem_failed_tries :
    ∀ (m i : Nat) (a : Action), a ∈ failed_tries i m →
      ∃ j, i ≤ j ∧ j < i + m
        ∧ (a = .create_context j ∨ a = .create_queue j ∨ a = .create_program j)
  | 0, i, a, h => by simp [failed_tries] at h
  | m + 1, i, a, h => by
    simp only [failed_tries, List.mem_cons] at h
    rcases h with h | h | h | h
    · exact ⟨i, Nat.le_refl i, by omega, Or.inl h⟩
    · exact ⟨i, Nat.le_refl i, by omega, Or.inr (Or.inl h)⟩
    · exact ⟨i, Nat.le_refl i, by omega, Or.inr (Or.inr h)⟩
    · obtain ⟨j, h1, h2, h3⟩ := mem_failed_tries m (i + 1) a h
      exact ⟨j, by omega, by omega, h3⟩

section TraceOfMain

variable {Af : Type} [AddCommGroup Af] [DecidableEq Af]

/-- Once a device is programmed, the trace of `main` is the trace of the device
loop followed by an initial segment of the checked calls and the decode. -/
theorem main_trace (lib : Bn128 Af) (env : Env) (r : Run Af) (h : main lib env = some r)
    (hv : r.valid_device = 1) :
    ∃ t s, r.trace = (device_loop env.ok env.devices 0).1 ++ t
      ∧ t ++ s = checked_calls lib.BN128_BITS (parse_num_in (env.argv.getD 2 ""))
          ++ [.jb_import]
      ∧ (Action.jb_import ∈ t →
          ∀ a, a ∈ checked_calls lib.BN128_BITS (parse_num_in (env.argv.getD 2 "")) →
            env.ok a = true)
      ∧ ((∀ a, a ∈ checked_calls lib.BN128_BITS (parse_num_in (env.argv.getD 2 "")) →
            env.ok a = true) → s = []) := by
  rcases main_cases lib env r h with ⟨_, hr⟩ | ⟨_, d, _, hcase⟩
  · subst hr; exact absurd hv (by simp)
  · rcases hcase with ⟨_, hr⟩ | ⟨_, hcalls, hr⟩ | ⟨_, hcalls, hr⟩
    · subst hr; exact absurd hv (by simp)
    · subst hr
      obtain ⟨s0, hs0, _⟩ := run_checked_segment env.ok
        (checked_calls lib.BN128_BITS (parse_num_in (env.argv.getD 2 "")))
      refine ⟨_, s0 ++ [.jb_import], rfl, by rw [← List.append_assoc, hs0], ?_, ?_⟩
      · intro hmem
        have hin : Action.jb_import
            ∈ checked_calls lib.BN128_BITS (parse_num_in (env.argv.getD 2 "")) := by
          rw [← hs0]; exact List.mem_append_left _ hmem
        simp [checked_calls] at hin
      · intro hall
        rw [(run_checked_all env.ok _).mpr hall] at hcalls
        exact absurd hcalls (by simp)
    · subst hr
      obtain ⟨s0, hs0, hnil⟩ := run_checked_segment env.ok
        (checked_calls lib.BN128_BITS (parse_num_in (env.argv.getD 2 "")))
      have hs0nil := hnil hcalls
      subst hs0nil
      rw [List.append_nil] at hs0
      exact ⟨_, [], by rw [List.append_assoc], by rw [List.append_nil, hs0],
        fun _ => (run_checked_all env.ok _).mp hcalls, fun _ => rfl⟩

/-- C9: with context and queue creation succeeding on every device, when device
k is the first whose programming succeeds, the trace of main starts with the
failed tries on the devices before k followed by the four calls on device k,
the kernel creation among them, no later call touches a device, no other kernel
is created, and valid_device ends as 1 as soon as that kernel creation returns
successfully; when programming fails on every device (or none is found),
valid_device ends as 0 and main exits with EXIT_FAILURE after the failed tries
alone, without creating a buffer or launching a kernel. -/
theorem device_selection (lib : Bn128 Af) (env : Env) (r : Run Af)
    (h : main lib env = some r) (hargs : env.argv.length = 3)
    (hcq : ∀ j, j < env.devices →
      env.ok (.create_context j) = true ∧ env.ok (.create_queue j) = true) :
    (∀ k, k < env.devices → (∀ j, j < k → env.ok (.create_program j) = false) →
        env.ok (.create_program k) = true →
        (∃ rest, r.trace = failed_tries 0 k
              ++ [.create_context k, .create_queue k, .create_program k, .create_kernel k]
              ++ rest
            ∧ ∀ a, a ∈ rest → a.device = none)
        ∧ (∀ j, Action.create_kernel j ∈ r.trace ↔ j = k)
        ∧ (∀ a j, a ∈ r.trace → a.device = some j → j ≤ k)
        ∧ (r.valid_device = 1 ↔ env.ok (.create_kernel k) = true))
    ∧ ((∀ j, j < env.devices → env.ok (.create_program j) = false) →
        r.valid_device = 0 ∧ r.exit_code = EXIT_FAILURE ∧ EXIT_FAILURE ≠ 0
        ∧ r.trace = failed_tries 0 env.devices
        ∧ ∀ a, a ∈ r.trace → a.is_create_buffer = false ∧ a ≠ .enqueue_task) := by
  constructor
  · intro k hk hfail hprog
    have hdev := device_loop_trace_programmed env.ok env.devices 0 k (Nat.zero_le k)
      (by omega) (fun j _ hj => ⟨(hcq j (by omega)).1, (hcq j (by omega)).2, hfail j hj⟩)
      (hcq k hk).1 (hcq k hk).2 hprog
    rw [Nat.sub_zero] at hdev
    have hiff : (device_loop env.ok env.devices 0).2 = .valid k
        ↔ env.ok (.create_kernel k) = true := by
      rw [device_loop_programmed_iff]
      exact ⟨fun hP => hP.2.2.2.2.2, fun hkern =>
        ⟨hk, fun j hj => ⟨(hcq j (by omega)).1, (hcq j (by omega)).2, hfail j hj⟩,
          (hcq k hk).1, (hcq k hk).2, hprog, hkern⟩⟩
    have hvalid_k : ∀ k2, (device_loop env.ok env.devices 0).2 = .valid k2 → k2 = k := by
      intro k2 h2
      have hP := (device_loop_programmed_iff env k2).mp h2
      rcases Nat.lt_trichotomy k2 k with hlt | heq | hgt
      · have := hfail k2 hlt
        rw [hP.2.2.2.2.1] at this
        exact absurd this (by simp)
      · exact heq
      · have := (hP.2.1 k hgt).2.2
        rw [hprog] at this
        exact absurd this (by simp)
    have hshape : (r.valid_device = 1 ↔ env.ok (.create_kernel k) = true)
        ∧ ∃ t, r.trace = (device_loop env.ok env.devices 0).1 ++ t
          ∧ ∀ a, a ∈ t → a.device = none := by
      rcases main_cases lib env r h with ⟨hne, _⟩ | ⟨_, d, _, hcase⟩
      · exact absurd hargs hne
      · rcases hcase with ⟨hno, hr⟩ | ⟨⟨k2, hk2⟩, _, hr⟩ | ⟨⟨k2, hk2⟩, _, hr⟩
        · refine ⟨?_, [], by rw [hr, List.append_nil], fun a ha => absurd ha (by simp)⟩
          rw [hr]
          exact ⟨fun h1 => absurd h1 (by simp), fun hkern => absurd (hiff.mpr hkern) (hno k)⟩
        · have hv : r.valid_device = 1 := by rw [hr]
          obtain ⟨t, s0, htrace, hts, _, _⟩ := main_trace lib env r h hv
          have e := hvalid_k k2 hk2
          subst e
          exact ⟨⟨fun _ => hiff.mp hk2, fun _ => hv⟩, t, htrace, fun a ha =>
            checked_calls_device _ _ a (by rw [← hts]; exact List.mem_append_left _ ha)⟩
        · have hv : r.valid_device = 1 := by rw [hr]
          obtain ⟨t, s0, htrace, hts, _, _⟩ := main_trace lib env r h hv
          have e := hvalid_k k2 hk2
          subst e
          exact ⟨⟨fun _ => hiff.mp hk2, fun _ => hv⟩, t, htrace, fun a ha =>
            checked_calls_device _ _ a (by rw [← hts]; exact List.mem_append_left _ ha)⟩
    obtain ⟨hvd, t, htrace, hrest⟩ := hshape
    rw [hdev] at htrace
    have hmem : ∀ a, a ∈ r.trace →
        (∃ j, j < k ∧ (a = .create_context j ∨ a = .create_queue j ∨ a = .create_program j))
        ∨ a = .create_context k ∨ a = .create_queue k ∨ a = .create_program k
        ∨ a = .create_kernel k ∨ a ∈ t := by
      intro a ha
      rw [htrace] at ha
      simp only [List.mem_append, List.mem_cons, List.mem_singleton, List.not_mem_nil,
        or_false] at ha
      rcases ha with (ha | ha | ha | ha | ha) | ha
      · obtain ⟨j, _, hj2, hj3⟩ := mem_failed_tries k 0 a ha
        exact Or.inl ⟨j, by omega, hj3⟩
      · exact Or.inr (Or.inl ha)
      · exact Or.inr (Or.inr (Or.inl ha))
      · exact Or.inr (Or.inr (Or.inr (Or.inl ha)))
      · exact Or.inr (Or.inr (Or.inr (Or.inr (Or.inl ha))))
      · exact Or.inr (Or.inr (Or.inr (Or.inr (Or.inr ha))))
    refine ⟨⟨t, htrace, hrest⟩, ?_, ?_, hvd⟩
    · intro j
      constructor
      · intro hj
        rcases hmem _ hj with ⟨i, _, hi | hi | hi⟩ | hi | hi | hi | hi | hi
        · exact absurd hi (by simp)
        · exact absurd hi (by simp)
        · exact absurd hi (by simp)
        · exact absurd hi (by simp)
        · exact absurd hi (by simp)
        · exact absurd hi (by simp)
        · simpa using hi
        · exact absurd (hrest _ hi) (by simp [Action.device])
      · intro hj
        subst hj
        rw [htrace]
        simp
    · intro a j ha hdevice
      rcases hmem a ha with ⟨i, hik, hi | hi | hi⟩ | hi | hi | hi | hi | hi
      · subst hi; simp only [Action.device, Option.some.injEq] at hdevice; omega
      · subst hi; simp only [Action.device, Option.some.injEq] at hdevice; omega
      · subst hi; simp only [Action.device, Option.some.injEq] at hdevice; omega
      · subst hi; simp only [Action.device, Option.some.injEq] at hdevice; omega
      · subst hi; simp only [Action.device, Option.some.injEq] at hdevice; omega
      · subst hi; simp only [Action.device, Option.some.injEq] at hdevice; omega
      · subst hi; simp only [Action.device, Option.some.injEq] at hdevice; omega
      · rw [hrest a hi] at hdevice; exact absurd hdevice (by simp)
  · intro hfail
    have hloop := device_loop_none env.ok env.devices 0
      (fun j _ hj => ⟨(hcq j (by omega)).1, (hcq j (by omega)).2, hfail j (by omega)⟩)
    have hr : r = ⟨EXIT_FAILURE, failed_tries 0 env.devices, 0, false, r.sw_result,
        none, none⟩ := by
      rcases main_cases lib env r h with ⟨hne, _⟩ | ⟨_, d, _, hcase⟩
      · exact absurd hargs hne
      · rcases hcase with ⟨_, hr⟩ | ⟨⟨k, hk⟩, _⟩ | ⟨⟨k, hk⟩, _⟩
        · rw [hr, hloop]
        · rw [hloop] at hk; exact absurd hk (by simp)
        · rw [hloop] at hk; exact absurd hk (by simp)
    rw [hr]
    refine ⟨rfl, rfl, by simp [EXIT_FAILURE], rfl, ?_⟩
    intro a ha
    obtain ⟨j, _, _, hj | hj | hj⟩ := mem_failed_tries _ _ a ha <;> subst hj <;>
      simp [Action.is_create_buffer]

end TraceOfMain

theorem small_run_defined (count : String) (x : Nat)
    (h : (main small_lib (small_env count x)).isSome = true) :
    ∃ r, main small_lib (small_env count x) = some r :=
  Option.isSome_iff_exists.mp h

/-- Witness of C9: on the small run the first device refuses the image, the
second takes it, and the only kernel created is that of device 1. -/
theorem device_selection_witness :
    ∃ r, main small_lib (small_env "2" 5) = some r ∧ r.valid_device = 1
      ∧ ∀ j, Action.create_kernel j ∈ r.trace ↔ j = 1 := by
  obtain ⟨r, hr⟩ := small_run_defined "2" 5 (by decide)
  have h := (device_selection small_lib (small_env "2" 5) r hr rfl
    (by intro j _; constructor <;> simp [small_env])).1 1 (by decide)
    (by intro j hj; have e : j = 0 := by omega
        subst e; simp [small_env])
    (by simp [small_env])
  exact ⟨r, hr, h.2.2.2.mpr (by simp [small_env]), h.2.1⟩

/-! ### The buffers handed to the accelerator -/

theorem writeAt_length (buf ws b : List Nat) (off : Nat) (h : writeAt buf off ws = some b) :
    b.length = buf.length := by
  unfold writeAt at h
  split at h
  · injection h with h
    rw [← h]
    simp only [List.length_append, List.length_take, List.length_drop]
    omega
  · exact absurd h (by simp)

theorem blit_length (old out : List Nat) : (blit old out).length = old.length := by
  unfold blit
  simp only [List.length_take, List.length_append, List.length_drop]
  omega

theorem split_unique (a : Action) :
    ∀ (p q m1 m2 : List Action), a ∉ p → a ∉ q → p ++ a :: q = m1 ++ a :: m2 →
      m1 = p ∧ m2 = q
  | [], q, [], m2, _, _, h => by
    simp only [List.nil_append, List.cons.injEq, true_and] at h
    exact ⟨rfl, h.symm⟩
  | [], q, x :: m1, m2, _, hq, h => by
    simp only [List.nil_append, List.cons_append, List.cons.injEq] at h
    exact absurd (by rw [h.2]; simp) hq
  | x :: p, q, [], m2, hp, _, h => by
    simp only [List.nil_append, List.cons_append, List.cons.injEq] at h
    exact absurd (by rw [h.1]; simp) hp
  | x :: p, q, y :: m1, m2, hp, hq, h => by
    simp only [List.cons_append, List.cons.injEq] at h
    obtain ⟨hxy, hrest⟩ := h
    obtain ⟨h1, h2⟩ := split_unique a p q m1 m2
      (fun hmem => hp (List.mem_cons_of_mem _ hmem)) hq hrest
    exact ⟨by rw [h1, hxy], h2⟩

theorem device_loop_filter (ok : Action → Bool) (n i : Nat) (f : Action → Bool)
    (hf : ∀ a : Action, a.device ≠ none → f a = false) :
    (device_loop ok n i).1.filter f = [] := by
  rw [List.filter_eq_nil_iff]
  intro a ha
  rw [hf a (device_loop_devices ok n i a ha)]
  simp

theorem run_checked_head (ok : Action → Bool) (a : Action) (l : List Action) :
    a ∈ (run_checked ok (a :: l)).1 := by
  unfold run_checked
  split_ifs <;> simp

section Buffers

variable {Af : Type} [AddCommGroup Af] [DecidableEq Af]

omit [DecidableEq Af] in
theorem loop_body_length (lib : Bn128 Af) (i : Nat) (st st1 : TestData Af)
    (h : loop_body lib i st = some st1) :
    st1.point_input.length = st.point_input.length
      ∧ st1.scalar_input.length = st.scalar_input.length := by
  unfold loop_body at h
  simp only at h
  split at h
  · exact absurd h (by simp)
  · rename_i pts hp
    split at h
    · exact absurd h (by simp)
    · rename_i scs hsc
      injection h with h
      rw [← h]
      exact ⟨writeAt_length _ _ _ _ hp, writeAt_length _ _ _ _ hsc⟩

omit [DecidableEq Af] in
theorem test_data_loop_length (lib : Bn128 Af) :
    ∀ (k i : Nat) (st st1 : TestData Af), test_data_loop lib k i st = some st1 →
      st1.point_input.length = st.point_input.length
        ∧ st1.scalar_input.length = st.scalar_input.length
  | 0, i, st, st1, h => by
    simp only [test_data_loop, Option.some.injEq] at h
    rw [h]
    exact ⟨rfl, rfl⟩
  | k + 1, i, st, st1, h => by
    simp only [test_data_loop] at h
    split at h
    · exact absurd h (by simp)
    · rename_i st2 hb
      obtain ⟨h1, h2⟩ := test_data_loop_length lib k (i + 1) st2 st1 h
      obtain ⟨h3, h4⟩ := loop_body_length lib i st st2 hb
      exact ⟨by rw [h1, h3], by rw [h2, h4]⟩

omit [DecidableEq Af] in
theorem create_test_data_length (lib : Bn128 Af) (N : Nat) (d : TestData Af)
    (h : create_test_data lib N = some d) :
    d.point_input.length = point_input_len lib.BN128_BITS N
      ∧ d.scalar_input.length = scalar_input_len lib.BN128_BITS N := by
  unfold create_test_data at h
  obtain ⟨h1, h2⟩ := test_data_loop_length lib N 0 _ d h
  simp only [List.length_replicate] at h1 h2
  exact ⟨h1, h2⟩

/-- Every call in the trace of `main` is the usage line, a call on a device, or
one of the checked calls and the decode. -/
theorem main_trace_mem (lib : Bn128 Af) (env : Env) (r : Run Af) (h : main lib env = some r)
    (a : Action) (ha : a ∈ r.trace) :
    a = .usage ∨ a.device ≠ none
      ∨ a ∈ checked_calls lib.BN128_BITS (parse_num_in (env.argv.getD 2 ""))
          ++ [.jb_import] := by
  have hcalls : ∀ x, x ∈ (run_checked env.ok (checked_calls lib.BN128_BITS
      (parse_num_in (env.argv.getD 2 "")))).1 →
      x ∈ checked_calls lib.BN128_BITS (parse_num_in (env.argv.getD 2 "")) := by
    intro x hx
    obtain ⟨s0, hs0, _⟩ := run_checked_segment env.ok
      (checked_calls lib.BN128_BITS (parse_num_in (env.argv.getD 2 "")))
    rw [← hs0]
    exact List.mem_append_left _ hx
  rcases main_cases lib env r h with ⟨_, hr⟩ | ⟨_, d, _, hcase⟩
  · rw [hr] at ha
    simp only [List.mem_singleton] at ha
    exact Or.inl ha
  · rcases hcase with ⟨_, hr⟩ | ⟨_, _, hr⟩ | ⟨_, _, hr⟩
    · rw [hr] at ha
      exact Or.inr (Or.inl (device_loop_devices _ _ _ a ha))
    · rw [hr] at ha
      simp only [List.mem_append] at ha
      rcases ha with ha | ha
      · exact Or.inr (Or.inl (device_loop_devices _ _ _ a ha))
      · exact Or.inr (Or.inr (List.mem_append_left _ (hcalls a ha)))
    · rw [hr] at ha
      simp only [List.mem_append] at ha
      rcases ha with (ha | ha) | ha
      · exact Or.inr (Or.inl (device_loop_devices _ _ _ a ha))
      · exact Or.inr (Or.inr (List.mem_append_left _ (hcalls a ha)))
      · exact Or.inr (Or.inr (List.mem_append_right _ ha))

/-- Once a device is programmed, the creation of the scalar buffer is the next
call of `main`. -/
theorem main_first_call (lib : Bn128 Af) (env : Env) (r : Run Af) (h : main lib env = some r)
    (hv : r.valid_device = 1) :
    Action.create_buffer .scalar (scalar_vector_size_bytes lib.BN128_BITS
      (parse_num_in (env.argv.getD 2 ""))) ∈ r.trace := by
  have hhead := run_checked_head env.ok
    (.create_buffer .scalar (scalar_vector_size_bytes lib.BN128_BITS
      (parse_num_in (env.argv.getD 2 ""))))
    (checked_calls lib.BN128_BITS (parse_num_in (env.argv.getD 2 ""))).tail
  have hcc : (.create_buffer .scalar (scalar_vector_size_bytes lib.BN128_BITS
      (parse_num_in (env.argv.getD 2 ""))))
      :: (checked_calls lib.BN128_BITS (parse_num_in (env.argv.getD 2 ""))).tail
      = checked_calls lib.BN128_BITS (parse_num_in (env.argv.getD 2 "")) := rfl
  rw [hcc] at hhead
  rcases main_cases lib env r h with ⟨_, hr⟩ | ⟨_, d, _, hcase⟩
  · rw [hr] at hv; exact absurd hv (by simp)
  · rcases hcase with ⟨_, hr⟩ | ⟨_, _, hr⟩ | ⟨_, _, hr⟩
    · rw [hr] at hv; exact absurd hv (by simp)
    · rw [hr]
      exact List.mem_append_right _ hhead
    · rw [hr]
      exact List.mem_append_left _ (List.mem_append_right _ hhead)

/-- C4: with BN128_BITS a positive multiple of 64 whose int products do not
overflow, and a point count N whose byte sizes do not overflow 64 bits, the
vectors of main have these lengths, W being the bit width over 64 rounded up:
the scalar vector N·W words, the point vector 2·N·W words, the result vector
3·W words; every buffer main creates is given the byte size of its vector,
eight times the word count; the scalar buffer is created as soon as a device
is programmed, and when no checked call fails the buffers created are the
scalar, point and result buffers with 8·N·W, 8·2·N·W and 8·3·W bytes. -/
theorem buffer_lengths (lib : Bn128 Af) (env : Env) (r : Run Af) (d : TestData Af)
    (hb : WordAligned lib.BN128_BITS) (hint : 3 * lib.BN128_BITS < 2 ^ 31)
    (hN : 2 * (lib.BN128_BITS / 8) * parse_num_in (env.argv.getD 2 "") < 2 ^ 64)
    (hd : create_test_data lib (parse_num_in (env.argv.getD 2 "")) = some d)
    (h : main lib env = some r) :
    d.scalar_input.length
        = parse_num_in (env.argv.getD 2 "") * words_per_fe lib.BN128_BITS
      ∧ d.point_input.length
        = 2 * parse_num_in (env.argv.getD 2 "") * words_per_fe lib.BN128_BITS
      ∧ (hw_result_vector lib.BN128_BITS env (parse_num_in (env.argv.getD 2 "")) d).length
        = 3 * words_per_fe lib.BN128_BITS
      ∧ (∀ b bytes, Action.create_buffer b bytes ∈ r.trace →
          (b = .scalar ∧ bytes = 8 * d.scalar_input.length)
          ∨ (b = .point ∧ bytes = 8 * d.point_input.length)
          ∨ (b = .result ∧ bytes = 8 * (hw_result_vector lib.BN128_BITS env
                (parse_num_in (env.argv.getD 2 "")) d).length))
      ∧ (r.valid_device = 1 →
          Action.create_buffer .scalar (8 * (parse_num_in (env.argv.getD 2 "")
            * words_per_fe lib.BN128_BITS)) ∈ r.trace)
      ∧ (r.valid_device = 1 →
          (∀ a, a ∈ checked_calls lib.BN128_BITS (parse_num_in (env.argv.getD 2 "")) →
            env.ok a = true) →
          r.trace.filter Action.is_create_buffer
            = [.create_buffer .scalar (8 * (parse_num_in (env.argv.getD 2 "")
                  * words_per_fe lib.BN128_BITS)),
               .create_buffer .point (8 * (2 * parse_num_in (env.argv.getD 2 "")
                  * words_per_fe lib.BN128_BITS)),
               .create_buffer .result (8 * (3 * words_per_fe lib.BN128_BITS))]) := by
  have hr64 : 3 * lib.BN128_BITS < 2 ^ 64 := by omega
  obtain ⟨hsl, hpl, hrl, hsb, hpb, hrb⟩ :=
    vector_lengths lib.BN128_BITS (parse_num_in (env.argv.getD 2 "")) hb hN
  obtain ⟨hdp, hds⟩ := create_test_data_length lib _ d hd
  have hhw : (hw_result_vector lib.BN128_BITS env (parse_num_in (env.argv.getD 2 "")) d).length
      = hw_result_len lib.BN128_BITS := by
    unfold hw_result_vector
    rw [blit_length, List.length_replicate]
  refine ⟨by rw [hds, hsl], by rw [hdp, hpl], by rw [hhw, hrl], ?_, ?_, ?_⟩
  · intro b bytes hmem
    rcases main_trace_mem lib env r h _ hmem with hu | hdev | hc
    · exact absurd hu (by simp)
    · exact absurd rfl hdev
    · simp only [checked_calls, List.cons_append, List.nil_append, List.mem_cons,
        List.mem_singleton, Action.create_buffer.injEq, List.not_mem_nil, or_false] at hc
      simp only [reduceCtorEq, or_false] at hc
      rcases hc with ⟨h1, h2⟩ | ⟨h1, h2⟩ | ⟨h1, h2⟩
      · exact Or.inl ⟨h1, by rw [h2, hsb, hds]⟩
      · exact Or.inr (Or.inl ⟨h1, by rw [h2, hpb, hdp]⟩)
      · exact Or.inr (Or.inr ⟨h1, by rw [h2, hrb, hhw]⟩)
  · intro hv
    have hfirst := main_first_call lib env r h hv
    rw [hsb, hsl] at hfirst
    exact hfirst
  · intro hv hok
    obtain ⟨t, s0, htrace, hts, _, hall⟩ := main_trace lib env r h hv
    have hs0 := hall hok
    subst hs0
    rw [List.append_nil] at hts
    rw [htrace, hts, List.filter_append,
      device_loop_filter env.ok env.devices 0 Action.is_create_buffer
        (fun a ha => by cases a <;> simp_all [Action.is_create_buffer, Action.device])]
    simp only [checked_calls, List.nil_append, List.cons_append, List.filter_cons,
      Action.is_create_buffer, if_true, List.filter_nil]
    rw [hsb, hpb, hrb, hsl, hpl, hrl]
    simp

end Buffers

theorem small_env_ok (count : String) (x : Nat) (bits N : Nat) (a : Action)
    (ha : a ∈ checked_calls bits N) : (small_env count x).ok a = true := by
  have hne : a ≠ Action.create_program 0 := by
    intro e
    subst e
    exact absurd (checked_calls_device _ _ _ (List.mem_append_left _ ha))
      (by simp [Action.device])
  simp [small_env, hne]

/-- Witness of C4: on the small run with N = 2 and BN128_BITS = 256 the scalar,
point and result buffers are created with 64, 128 and 96 bytes. -/
theorem buffer_lengths_witness :
    ∃ r, main small_lib (small_env "2" 5) = some r
      ∧ r.trace.filter Action.is_create_buffer
        = [.create_buffer .scalar 64, .create_buffer .point 128,
           .create_buffer .result 96] := by
  obtain ⟨r, hr⟩ := small_run_defined "2" 5 (by decide)
  obtain ⟨sw, hd⟩ := create_test_data_blocks small_lib small_lib_serialises 2 (by decide)
  have hN : parse_num_in ((small_env "2" 5).argv.getD 2 "") = 2 := by decide
  have hv : (main small_lib (small_env "2" 5)).map (fun r => r.valid_device) = some 1 := by
    decide
  rw [hr] at hv
  have h := (buffer_lengths small_lib (small_env "2" 5) r _ small_lib_serialises.aligned
    (by decide) (by rw [hN]; decide) (by rw [hN]; exact hd) hr).2.2.2.2.2
    (by simpa using hv) (fun a ha => small_env_ok _ _ _ _ a ha)
  rw [hN] at h
  exact ⟨r, hr, h⟩

section Invocation

variable {Af : Type} [AddCommGroup Af] [DecidableEq Af]

/-- C7: in a run of main that has programmed a device, whenever the kernel is
launched the calls before the launch are, after those of the device loop, the
three buffer creations, the binding of the kernel arguments 0, 1, 2, 3 to the
point count, the point buffer, the scalar buffer and the result buffer in this
order, and the migration of the point and scalar buffers to the device;
whenever jb_import reads the result buffer, the launch, the enqueued migration
of the result buffer and a finish that returned successfully come right before
it and nothing comes after; no other argument binding occurs; the kernel is
launched at most once, and when no checked call fails the trace is the whole
sequence, with exactly one launch. -/
theorem invocation_order (lib : Bn128 Af) (env : Env) (r : Run Af)
    (h : main lib env = some r) (hv : r.valid_device = 1) :
    (∀ l1 l2, r.trace = l1 ++ Action.enqueue_task :: l2 →
        ∃ D, (∀ a, a ∈ D → a.device ≠ none)
          ∧ l1 = D ++
            [.create_buffer .scalar (scalar_vector_size_bytes lib.BN128_BITS
                (parse_num_in (env.argv.getD 2 ""))),
             .create_buffer .point (point_vector_size_bytes lib.BN128_BITS
                (parse_num_in (env.argv.getD 2 ""))),
             .create_buffer .result (result_vector_size_bytes lib.BN128_BITS),
             .set_arg 0 (.count (parse_num_in (env.argv.getD 2 ""))),
             .set_arg 1 (.buffer .point), .set_arg 2 (.buffer .scalar),
             .set_arg 3 (.buffer .result),
             .migrate_to_device [.point, .scalar]])
    ∧ (∀ l1 l2, r.trace = l1 ++ Action.jb_import :: l2 →
        l2 = [] ∧ env.ok Action.finish = true
        ∧ ∃ D, (∀ a, a ∈ D → a.device ≠ none)
          ∧ l1 = D ++
            [.create_buffer .scalar (scalar_vector_size_bytes lib.BN128_BITS
                (parse_num_in (env.argv.getD 2 ""))),
             .create_buffer .point (point_vector_size_bytes lib.BN128_BITS
                (parse_num_in (env.argv.getD 2 ""))),
             .create_buffer .result (result_vector_size_bytes lib.BN128_BITS),
             .set_arg 0 (.count (parse_num_in (env.argv.getD 2 ""))),
             .set_arg 1 (.buffer .point), .set_arg 2 (.buffer .scalar),
             .set_arg 3 (.buffer .result),
             .migrate_to_device [.point, .scalar],
             .enqueue_task, .migrate_to_host [.result], .finish])
    ∧ (∀ idx v, Action.set_arg idx v ∈ r.trace →
        (idx = 0 ∧ v = .count (parse_num_in (env.argv.getD 2 "")))
        ∨ (idx = 1 ∧ v = .buffer .point) ∨ (idx = 2 ∧ v = .buffer .scalar)
        ∨ (idx = 3 ∧ v = .buffer .result))
    ∧ (∃ s, r.trace.filter Action.is_set_arg ++ s
        = [.set_arg 0 (.count (parse_num_in (env.argv.getD 2 ""))),
           .set_arg 1 (.buffer .point), .set_arg 2 (.buffer .scalar),
           .set_arg 3 (.buffer .result)])
    ∧ (∀ l1 l2, r.trace = l1 ++ Action.enqueue_task :: l2 →
        Action.migrate_to_device [.point, .scalar] ∈ l1)
    ∧ r.trace.count Action.enqueue_task ≤ 1
    ∧ ((∀ a, a ∈ checked_calls lib.BN128_BITS (parse_num_in (env.argv.getD 2 "")) →
          env.ok a = true) →
        r.trace.count Action.enqueue_task = 1
        ∧ ∃ D, (∀ a, a ∈ D → a.device ≠ none)
          ∧ r.trace = D ++
            [.create_buffer .scalar (scalar_vector_size_bytes lib.BN128_BITS
                (parse_num_in (env.argv.getD 2 ""))),
             .create_buffer .point (point_vector_size_bytes lib.BN128_BITS
                (parse_num_in (env.argv.getD 2 ""))),
             .create_buffer .result (result_vector_size_bytes lib.BN128_BITS),
             .set_arg 0 (.count (parse_num_in (env.argv.getD 2 ""))),
             .set_arg 1 (.buffer .point), .set_arg 2 (.buffer .scalar),
             .set_arg 3 (.buffer .result),
             .migrate_to_device [.point, .scalar],
             .enqueue_task, .migrate_to_host [.result], .finish, .jb_import])
    ∧ (∀ l1 l2, r.trace = l1 ++ Action.jb_import :: l2 →
        Action.migrate_to_host [.result] ∈ l1 ∧ Action.finish ∈ l1
        ∧ env.ok Action.finish = true) := by
  obtain ⟨t, s, htrace, hts, hjb, hall⟩ := main_trace lib env r h hv
  have hD : ∀ a, a ∈ (device_loop env.ok env.devices 0).1 → a.device ≠ none :=
    device_loop_devices env.ok env.devices 0
  have hfull : r.trace ++ s = (device_loop env.ok env.devices 0).1
      ++ (checked_calls lib.BN128_BITS (parse_num_in (env.argv.getD 2 "")) ++ [.jb_import]) := by
    rw [htrace, List.append_assoc, hts]
  have hcountD : ∀ a : Action, a.device = none →
      (device_loop env.ok env.devices 0).1.count a = 0 :=
    fun a ha => List.count_eq_zero.mpr (fun hmem => hD a hmem ha)
  have hcount_full : (checked_calls lib.BN128_BITS (parse_num_in (env.argv.getD 2 ""))
      ++ [Action.jb_import]).count Action.enqueue_task = 1 := by
    simp [checked_calls, List.count_cons]
  have hjb_ok : Action.jb_import ∈ r.trace → env.ok Action.finish = true := by
    intro hin
    rw [htrace, List.mem_append] at hin
    rcases hin with hin | hin
    · exact absurd rfl (hD _ hin)
    · exact hjb hin _ (by simp [checked_calls])
  refine ⟨?_, ?_, ?_, ?_, ?_, ?_, ?_, ?_⟩
  · intro l1 l2 hsplit
    obtain ⟨m1, m2, hm, hl1⟩ := split_in_segment _ _ _ _ _ l1 l2 hfull hsplit
      (fun hmem => hD _ hmem rfl)
    obtain ⟨hm1, _⟩ := split_unique Action.enqueue_task
      [.create_buffer .scalar (scalar_vector_size_bytes lib.BN128_BITS
          (parse_num_in (env.argv.getD 2 ""))),
       .create_buffer .point (point_vector_size_bytes lib.BN128_BITS
          (parse_num_in (env.argv.getD 2 ""))),
       .create_buffer .result (result_vector_size_bytes lib.BN128_BITS),
       .set_arg 0 (.count (parse_num_in (env.argv.getD 2 ""))),
       .set_arg 1 (.buffer .point), .set_arg 2 (.buffer .scalar),
       .set_arg 3 (.buffer .result),
       .migrate_to_device [.point, .scalar]]
      [.migrate_to_host [.result], .finish, .jb_import] m1 m2
      (by simp) (by simp) (by rw [← hm]; rfl)
    exact ⟨_, hD, by rw [hl1, hm1]⟩
  · intro l1 l2 hsplit
    obtain ⟨m1, m2, hm, hl1⟩ := split_in_segment _ _ _ _ _ l1 l2 hfull hsplit
      (fun hmem => hD _ hmem rfl)
    obtain ⟨hm1, hm2⟩ := split_unique Action.jb_import
      [.create_buffer .scalar (scalar_vector_size_bytes lib.BN128_BITS
          (parse_num_in (env.argv.getD 2 ""))),
       .create_buffer .point (point_vector_size_bytes lib.BN128_BITS
          (parse_num_in (env.argv.getD 2 ""))),
       .create_buffer .result (result_vector_size_bytes lib.BN128_BITS),
       .set_arg 0 (.count (parse_num_in (env.argv.getD 2 ""))),
       .set_arg 1 (.buffer .point), .set_arg 2 (.buffer .scalar),
       .set_arg 3 (.buffer .result),
       .migrate_to_device [.point, .scalar],
       .enqueue_task, .migrate_to_host [.result], .finish]
      [] m1 m2 (by simp) (by simp) (by rw [← hm]; rfl)
    have hl2 : l2 = [] := by
      have hlen := congrArg List.length hfull
      rw [hsplit, hl1, hm1] at hlen
      simp only [checked_calls, List.length_append, List.length_cons, List.length_nil] at hlen
      exact List.eq_nil_of_length_eq_zero (by omega)
    exact ⟨hl2, hjb_ok (by rw [hsplit]; simp), _, hD, by rw [hl1, hm1]⟩
  · intro idx v hmem
    rw [htrace, List.mem_append] at hmem
    rcases hmem with hmem | hmem
    · exact absurd rfl (hD _ hmem)
    · have hin : Action.set_arg idx v
          ∈ checked_calls lib.BN128_BITS (parse_num_in (env.argv.getD 2 ""))
            ++ [.jb_import] := by
        rw [← hts]; exact List.mem_append_left _ hmem
      simp only [checked_calls, List.cons_append, List.nil_append, List.mem_cons,
        List.mem_singleton, Action.set_arg.injEq, List.not_mem_nil, or_false] at hin
      simp only [reduceCtorEq, false_or, or_false] at hin
      exact hin
  · refine ⟨s.filter Action.is_set_arg, ?_⟩
    rw [← List.filter_append, hfull, List.filter_append,
      device_loop_filter env.ok env.devices 0 Action.is_set_arg
        (fun a ha => by cases a <;> simp_all [Action.is_set_arg, Action.device])]
    rfl
  · intro l1 l2 hsplit
    obtain ⟨m1, m2, hm, hl1⟩ := split_in_segment _ _ _ _ _ l1 l2 hfull hsplit
      (fun hmem => hD _ hmem rfl)
    rw [hl1]
    exact List.mem_append_right _
      (guarded_sound _ _ (by simp) _ (by simp [guarded, checked_calls]) m1 m2 hm)
  · have hle : r.trace.count Action.enqueue_task
        ≤ (r.trace ++ s).count Action.enqueue_task := by
      rw [List.count_append]; omega
    rw [hfull, List.count_append, hcountD Action.enqueue_task rfl, hcount_full] at hle
    omega
  · intro hok
    have hs := hall hok
    subst hs
    rw [List.append_nil] at hfull
    refine ⟨by rw [hfull, List.count_append, hcountD Action.enqueue_task rfl, hcount_full],
      _, hD, ?_⟩
    rw [hfull]
    rfl
  · intro l1 l2 hsplit
    obtain ⟨m1, m2, hm, hl1⟩ := split_in_segment _ _ _ _ _ l1 l2 hfull hsplit
      (fun hmem => hD _ hmem rfl)
    rw [hl1]
    exact ⟨List.mem_append_right _
        (guarded_sound _ _ (by simp) _ (by simp [guarded, checked_calls]) m1 m2 hm),
      List.mem_append_right _
        (guarded_sound _ _ (by simp) _ (by simp [guarded, checked_calls]) m1 m2 hm),
      hjb_ok (by rw [hsplit]; simp)⟩

end Invocation

/-- Witness of C7: on the small run the kernel is launched exactly once. -/
theorem invocation_order_witness :
    ∃ r, main small_lib (small_env "2" 5) = some r
      ∧ r.trace.count Action.enqueue_task = 1 := by
  obtain ⟨r, hr⟩ := small_run_defined "2" 5 (by decide)
  have hv : (main small_lib (small_env "2" 5)).map (fun r => r.valid_device) = some 1 := by
    decide
  rw [hr] at hv
  have h := ((invocation_order small_lib (small_env "2" 5) r hr
    (by simpa using hv)).2.2.2.2.2.2.1 (fun a ha => small_env_ok _ _ _ _ a ha)).1
  exact ⟨r, hr, h⟩

end Host
